import Mathlib

/-!
Shallow embedding of the expense-assistant analytics and export services
(`app/services/analytics.py`, `app/services/export.py`).

Expense records are Python dicts with string keys and JSON-ish values;
we model them as insertion-ordered association lists with Python
truthiness (`x or default`), and model Python numbers by `ℚ`.
Operations that can raise a Python `TypeError` (adding a string to a
number, comparing values of different types while sorting) return
`Except String`.
-/

namespace ExpenseAssistant

/-- A JSON-ish Python value stored in an expense record. -/
inductive Value where
  | null : Value
  | num : ℚ → Value
  | str : String → Value
deriving DecidableEq

/-- Python truthiness of a value (`None`, `0` and `""` are falsy). -/
def Value.truthy : Value → Bool
  | .null => false
  | .num q => q ≠ 0
  | .str s => s ≠ ""

/-- Numeric view of a value; `none` when the value is not a number
(adding it to a running numeric total raises `TypeError`). -/
def Value.asNum : Value → Option ℚ
  | .num q => some q
  | _ => none

/-- An expense record: a Python dict with string keys, modelled as an
insertion-ordered association list. -/
abbrev Record := List (String × Value)

/-- `d.get(k)` followed by `... or default`: the stored value when present
and truthy, otherwise `default`. -/
def getOr (e : Record) (k : String) (d : Value) : Value :=
  match e.lookup k with
  | some v => if v.truthy then v else d
  | none => d

/-- Python dict item assignment (and `{**e, k: v}` overwrite semantics):
replace the value in place when the key is present, else append. -/
def Record.set : Record → String → Value → Record
  | [], k, v => [(k, v)]
  | (k', v') :: rest, k, v =>
    if k' = k then (k, v) :: rest else (k', v') :: Record.set rest k v

/-- Round half to even (Python `round`), on rationals. -/
def roundHalfEven (x : ℚ) : ℤ :=
  let f := ⌊x⌋
  let r := x - f
  if r < 1 / 2 then f
  else if 1 / 2 < r then f + 1
  else if 2 ∣ f then f else f + 1

/-- Python `round(x, 2)` on our rational model of floats. -/
def round2 (x : ℚ) : ℚ := (roundHalfEven (x * 100) : ℚ) / 100

/-- Decimal digits of a rational in `[0, 1)`, emitted by repeated
multiplication by 10 (with fuel; terminating expansions stop early). -/
def fracDigits : ℕ → ℚ → String
  | 0, _ => ""
  | fuel + 1, q =>
    if q = 0 then ""
    else
      let d := ⌊q * 10⌋
      toString d ++ fracDigits fuel (q * 10 - d)

/-- Model of Python `str` on a number (integers without a decimal point). -/
def fmtRat (q : ℚ) : String :=
  let sign := if q < 0 then "-" else ""
  let a := |q|
  let ip := ⌊a⌋
  let fp := a - ip
  if fp = 0 then sign ++ toString ip
  else sign ++ toString ip ++ "." ++ fracDigits 30 fp

/-- Model of the Python format spec `:.2f`: round half to even at two
decimals and print exactly two fractional digits. -/
def fmt2 (x : ℚ) : String :=
  let n := roundHalfEven (x * 100)
  let sign := if n < 0 then "-" else ""
  let m := n.natAbs
  let r := m % 100
  sign ++ toString (m / 100) ++ "." ++ (if r < 10 then "0" ++ toString r else toString r)

/-- Model of Python `str` applied to a record value (used in f-strings). -/
def Value.pyStr : Value → String
  | .null => "None"
  | .num q => fmtRat q
  | .str s => s

/-- Lexicographic `<` on character lists (Python compares strings by
code points, shorter prefix first). -/
def charListLt : List Char → List Char → Bool
  | _, [] => false
  | [], _ :: _ => true
  | c₁ :: t₁, c₂ :: t₂ => if c₁ = c₂ then charListLt t₁ t₂ else decide (c₁ < c₂)

/-- Python's `<` on strings: lexicographic comparison by code points. -/
def strLt (a b : String) : Bool := charListLt a.data b.data

/-- Comparison used by Python `sorted`: `TypeError` on mixed types. -/
def Value.cmpLt : Value → Value → Except String Bool
  | .num a, .num b => .ok (decide (a < b))
  | .str a, .str b => .ok (strLt a b)
  | _, _ => .error "TypeError: comparison not supported between instances"

/-- Insert a value into an already sorted list, raising on incomparable
elements (models a comparison-based Python sort). -/
def insertVal (v : Value) : List Value → Except String (List Value)
  | [] => .ok [v]
  | w :: ws =>
    match Value.cmpLt v w with
    | .error m => .error m
    | .ok true => .ok (v :: w :: ws)
    | .ok false =>
      match insertVal v ws with
      | .error m => .error m
      | .ok rest => .ok (w :: rest)

/-- Model of Python `sorted` on a list of values (insertion sort in the
`Except` monad; raises iff it compares two values of different types). -/
def sortValuesE : List Value → Except String (List Value)
  | [] => .ok []
  | v :: vs =>
    match sortValuesE vs with
    | .error m => .error m
    | .ok rest => insertVal v rest

/-- `defaultdict(lambda: {"amount": 0, "count": 0})` accumulation:
`breakdown[k]["amount"] += a; breakdown[k]["count"] += 1`, keys kept in
first-seen order. -/
def bumpBreakdown : List (Value × ℚ × ℕ) → Value → ℚ → List (Value × ℚ × ℕ)
  | [], k, a => [(k, a, 1)]
  | (k', a', c') :: rest, k, a =>
    if k' = k then (k', a' + a, c' + 1) :: rest
    else (k', a', c') :: bumpBreakdown rest k a

/-- `defaultdict(float)`/`defaultdict(int)` accumulation
(`m[k] += a`), keys kept in first-seen order. -/
def bumpAmount : List (Value × ℚ) → Value → ℚ → List (Value × ℚ)
  | [], k, a => [(k, a)]
  | (k', a') :: rest, k, a =>
    if k' = k then (k', a' + a) :: rest
    else (k', a') :: bumpAmount rest k a

/-- Lookup in a `defaultdict(float)` (missing keys read as `0`). -/
def lookupAmt (m : List (Value × ℚ)) (k : Value) : ℚ :=
  match m.lookup k with
  | some a => a
  | none => 0

/-- Python `max(items, key=..)`: scan keeping the first element whose key
is strictly greater than the current best (ties keep the earlier one). -/
def pyMax1 (key : α → ℚ) : α → List α → α
  | m, [] => m
  | m, x :: xs => pyMax1 key (if key m < key x then x else m) xs

/-- Python `max` over the items of an insertion-ordered mapping. -/
def pyMax (key : α → ℚ) : List α → Option α
  | [] => none
  | x :: xs => some (pyMax1 key x xs)

/-- The mutable accumulators of the first loop of `analyze_expenses`. -/
structure AccState where
  total : ℚ
  breakdown : List (Value × ℚ × ℕ)
  payments : List (Value × ℚ)
  daily : List (Value × ℚ)
deriving DecidableEq

/-- One iteration of the accumulation loop of `analyze_expenses`:
`amount = e.get("amount") or 0` (a truthy non-number raises on
`total += amount`), then the breakdown, payment-method and daily-total
updates with their `or`-coerced keys. -/
def analyzeStep (group_by : String) (st : AccState) (e : Record) :
    Except String AccState :=
  match (getOr e "amount" (.num 0)).asNum with
  | none => .error "TypeError: unsupported operand type for +"
  | some amount =>
    .ok
      { total := st.total + amount
        breakdown := bumpBreakdown st.breakdown (getOr e group_by (.str "other")) amount
        payments := bumpAmount st.payments (getOr e "payment_method" (.str "unknown")) amount
        daily := bumpAmount st.daily (getOr e "date" (.str "unknown")) amount }

/-- A value of the result dict of `analyze_expenses`. -/
inductive OutVal where
  | bool : Bool → OutVal
  | num : ℚ → OutVal
  | nat : ℕ → OutVal
  | str : String → OutVal
  | strs : List String → OutVal
  | breakdown : List (Value × ℚ × ℕ) → OutVal
  | amounts : List (Value × ℚ) → OutVal
deriving DecidableEq

/-- `e.get("date")` is truthy: the record enters `dated_expenses`. -/
def hasDate (e : Record) : Bool :=
  match e.lookup "date" with
  | some v => v.truthy
  | none => false

/-- First-seen-order deduplication (models building a `set` whose
iteration order is irrelevant because the result is sorted afterwards). -/
def dedupKeep : List Value → List Value
  | [] => []
  | v :: vs => if v ∈ vs then dedupKeep vs else v :: dedupKeep vs

/-- The trend-insight block of `analyze_expenses`: with at least two
dated expenses, sort the distinct dates, split at `len(dates)//2`, sum
each half's daily totals and compare. -/
def trendInsights (expenses : List Record) (daily : List (Value × ℚ)) :
    Except String (List String) :=
  let dated := expenses.filter hasDate
  if 2 ≤ dated.length then
    match sortValuesE (dedupKeep (dated.map (fun e => getOr e "date" (.str "unknown")))) with
    | .error m => .error m
    | .ok dates =>
      if 2 ≤ dates.length then
        let first_half := ((dates.take (dates.length / 2)).map (lookupAmt daily)).sum
        let second_half := ((dates.drop (dates.length / 2)).map (lookupAmt daily)).sum
        if first_half < second_half then
          .ok ["📈 Spending trending upward"]
        else if second_half < first_half then
          .ok ["📉 Spending trending downward"]
        else
          .ok []
      else
        .ok []
  else
    .ok []

/-- Embedding of `analyze_expenses(expenses, group_by, currency)`.
The returned association list is the Python result dict, with its keys
in the order of the source's dict literals. -/
def analyze_expenses (expenses : List Record)
    (group_by : String := "category") (currency : String := "MAD") :
    Except String (List (String × OutVal)) :=
  if expenses = [] then
    Except.ok
      [("success", .bool true), ("total_amount", .num 0),
       ("currency", .str currency), ("count", .nat 0),
       ("breakdown", .breakdown []),
       ("insights", .strs ["No expenses to analyze"])]
  else
    match expenses.foldlM (analyzeStep group_by) ⟨0, [], [], []⟩ with
    | .error m => .error m
    | .ok st =>
      match trendInsights expenses st.daily with
      | .error m => .error m
      | .ok trend =>
        Except.ok
          [("success", .bool true), ("total_amount", .num (round2 st.total)),
           ("currency", .str currency), ("count", .nat expenses.length),
           ("breakdown", .breakdown st.breakdown),
           ("insights", .strs
              ((match pyMax (fun x => x.2.1) st.breakdown with
                | some top =>
                    ["Highest spending: " ++ top.1.pyStr ++ " (" ++ fmt2 top.2.1 ++
                       " " ++ currency ++ ")"]
                | none => []) ++
               (match pyMax (fun x => x.2) st.payments with
                | some top =>
                    ["Most used payment: " ++ top.1.pyStr ++ " (" ++ fmt2 top.2 ++
                       " " ++ currency ++ ")"]
                | none => []) ++
               ["Average expense: " ++
                  fmt2 (if expenses = [] then 0 else st.total / expenses.length) ++
                  " " ++ currency] ++
               trend)),
           ("payment_summary", .amounts st.payments),
           ("daily_totals", .amounts st.daily)]

/-! ## Spec-side views of a record -/

/-- The record's amount with missing/null (and other falsy) values
treated as `0`, as the spec describes. -/
def amtOf (e : Record) : ℚ :=
  match (getOr e "amount" (.num 0)).asNum with
  | some q => q
  | none => 0

/-- The record's (coerced) amount is a number, so `total += amount`
does not raise. -/
def amountOk (e : Record) : Bool :=
  (getOr e "amount" (.num 0)).asNum.isSome

/-- The record's grouping key (missing → `"other"`). -/
def gkOf (group_by : String) (e : Record) : Value := getOr e group_by (.str "other")

/-- The record's payment method key (missing → `"unknown"`). -/
def pmOf (e : Record) : Value := getOr e "payment_method" (.str "unknown")

/-- The record's daily-totals key (missing → `"unknown"`). -/
def dtOf (e : Record) : Value := getOr e "date" (.str "unknown")

/-- The accumulation step of `analyze_expenses`, once the amount is known
to be numeric. -/
def pureStep (group_by : String) (st : AccState) (e : Record) : AccState :=
  { total := st.total + amtOf e
    breakdown := bumpBreakdown st.breakdown (gkOf group_by e) (amtOf e)
    payments := bumpAmount st.payments (pmOf e) (amtOf e)
    daily := bumpAmount st.daily (dtOf e) (amtOf e) }

/-- The accumulator state after the first loop of `analyze_expenses`. -/
def finalState (group_by : String) (expenses : List Record) : AccState :=
  expenses.foldl (pureStep group_by) ⟨0, [], [], []⟩

/-- The insights list of an analysis result dict. -/
def insightsOf (out : List (String × OutVal)) : List String :=
  match out.lookup "insights" with
  | some (.strs l) => l
  | _ => []

/-- The breakdown mapping of an analysis result dict. -/
def breakdownOf (out : List (String × OutVal)) : List (Value × ℚ × ℕ) :=
  match out.lookup "breakdown" with
  | some (.breakdown m) => m
  | _ => []

/-- The payment-summary mapping of an analysis result dict. -/
def paymentsOf (out : List (String × OutVal)) : List (Value × ℚ) :=
  match out.lookup "payment_summary" with
  | some (.amounts m) => m
  | _ => []

/-- The result dict built by `analyze_expenses` on a non-empty input,
expressed with the pure accumulator state. -/
def analyzeResult (es : List Record) (gb c : String) (trend : List String) :
    List (String × OutVal) :=
  [("success", .bool true), ("total_amount", .num (round2 (finalState gb es).total)),
   ("currency", .str c), ("count", .nat es.length),
   ("breakdown", .breakdown (finalState gb es).breakdown),
   ("insights", .strs
      ((match pyMax (fun x => x.2.1) (finalState gb es).breakdown with
        | some top =>
            ["Highest spending: " ++ top.1.pyStr ++ " (" ++ fmt2 top.2.1 ++ " " ++ c ++ ")"]
        | none => []) ++
       (match pyMax (fun x => x.2) (finalState gb es).payments with
        | some top =>
            ["Most used payment: " ++ top.1.pyStr ++ " (" ++ fmt2 top.2 ++ " " ++ c ++ ")"]
        | none => []) ++
       ["Average expense: " ++
          fmt2 (if es = [] then 0 else (finalState gb es).total / es.length) ++ " " ++ c] ++
       trend)),
   ("payment_summary", .amounts (finalState gb es).payments),
   ("daily_totals", .amounts (finalState gb es).daily)]

/-- Lookup of a key in a successful result dict (`none` on failure). -/
def okLookup (r : Except String (List (String × OutVal))) (k : String) : Option OutVal :=
  match r with
  | .ok out => out.lookup k
  | .error _ => none

/-- Sum of the accumulated amounts of a breakdown mapping. -/
def sumB (l : List (Value × ℚ × ℕ)) : ℚ := (l.map (fun x => x.2.1)).sum

/-- The analysis returned a result (did not raise). -/
def okB {α : Type} (r : Except String α) : Bool :=
  match r with
  | .ok _ => true
  | .error _ => false

/-- Breakdown mapping of a successful analysis (`[]` on failure). -/
def okBreakdown (r : Except String (List (String × OutVal))) : List (Value × ℚ × ℕ) :=
  match r with
  | .ok out => breakdownOf out
  | .error _ => []

/-- Payment summary of a successful analysis (`[]` on failure). -/
def okPayments (r : Except String (List (String × OutVal))) : List (Value × ℚ) :=
  match r with
  | .ok out => paymentsOf out
  | .error _ => []

/-- Insights list of a successful analysis (`[]` on failure). -/
def okInsights (r : Except String (List (String × OutVal))) : List String :=
  match r with
  | .ok out => insightsOf out
  | .error _ => []

/-- The value is a Python string. -/
def Value.isStr : Value → Bool
  | .str _ => true
  | _ => false

/-- The value is a Python number. -/
def Value.isNum : Value → Bool
  | .num _ => true
  | _ => false

/-- The truthy date values of the records, in input order
(the elements Python would put into the `set` before sorting). -/
def datesOf (es : List Record) : List Value :=
  (es.filter hasDate).map (fun e => getOr e "date" (.str "unknown"))

/-- Spec-side "first-seen maximum": the first element of the list whose
key is greater than or equal to every element's key (ties broken by
first-seen order). -/
def firstMaxBy (key : α → ℚ) (l : List α) : Option α :=
  l.find? (fun x => l.all (fun y => key y ≤ key x))

/-- Spec-side per-date total: the summed (coerced) amounts of the
records whose coerced date key equals `d` (the value accumulated in
`daily_totals[d]`). -/
def dateTotal (es : List Record) (d : Value) : ℚ :=
  ((es.filter (fun e => decide (dtOf e = d))).map amtOf).sum

/-- Spec-side sorted distinct truthy dates (empty if the sort raises). -/
def sortedDates (es : List Record) : List Value :=
  match sortValuesE (dedupKeep (datesOf es)) with
  | .ok dates => dates
  | .error _ => []

/-- Sum of the per-date totals over the first half of the sorted
distinct dates (split index `len(dates) // 2`). -/
def firstHalfSum (es : List Record) : ℚ :=
  (((sortedDates es).take ((sortedDates es).length / 2)).map (dateTotal es)).sum

/-- Sum of the per-date totals over the second half of the sorted
distinct dates (the extra date goes here when the count is odd). -/
def secondHalfSum (es : List Record) : ℚ :=
  (((sortedDates es).drop ((sortedDates es).length / 2)).map (dateTotal es)).sum

/-- Spec-side trend insight: present iff at least two distinct truthy
dates exist and the two halves' sums differ; upward iff the second
half's sum is larger. -/
def specTrend (es : List Record) : List String :=
  if 2 ≤ (sortedDates es).length then
    if firstHalfSum es < secondHalfSum es then ["📈 Spending trending upward"]
    else if secondHalfSum es < firstHalfSum es then ["📉 Spending trending downward"]
    else []
  else []

open scoped Classical

/-- `amounts = [e.get("amount") or 0 for e in expenses]` followed by the
arithmetic on it: coercing each amount to a number, raising the
`TypeError` that `sum`/`-` would raise on a truthy non-number. -/
def coerceAmounts : List Record → Except String (List ℚ)
  | [] => .ok []
  | e :: es =>
    match (getOr e "amount" (.num 0)).asNum with
    | none => .error "TypeError: unsupported operand type for +"
    | some q =>
      match coerceAmounts es with
      | .error m => .error m
      | .ok qs => .ok (q :: qs)

/-- Round half to even on a real number (Python `round` on a float). -/
noncomputable def roundHalfEvenR (x : ℝ) : ℤ :=
  let f := ⌊x⌋
  let r := x - f
  if r < 1 / 2 then f
  else if 1 / 2 < r then f + 1
  else if 2 ∣ f then f else f + 1

/-- Python `round(x, 2)` on a real number. -/
noncomputable def round2R (x : ℝ) : ℚ := ((roundHalfEvenR (x * 100) : ℤ) : ℚ) / 100

/-- Embedding of `detect_anomalies(expenses, threshold)`: fewer than 3
records is a no-op, then population mean and standard deviation over
the coerced amounts, an early empty return when `std_dev == 0`, and a
pass appending each record whose z-score exceeds the threshold,
augmented (via dict spread) with `z_score` and `deviation`. -/
noncomputable def detect_anomalies (expenses : List Record) (threshold : ℚ := 2) :
    Except String (List Record) :=
  if expenses.length < 3 then .ok []
  else
    match coerceAmounts expenses with
    | .error m => .error m
    | .ok amounts =>
      let mean : ℚ := amounts.sum / amounts.length
      let variance : ℚ := (amounts.map (fun x => (x - mean) ^ 2)).sum / amounts.length
      let std_dev : ℝ := Real.sqrt (variance : ℝ)
      if std_dev = 0 then .ok []
      else
        .ok (expenses.foldl (fun acc e =>
          let amount := amtOf e
          let z_score : ℝ := |(amount : ℝ) - (mean : ℝ)| / std_dev
          if z_score > (threshold : ℝ) then
            acc ++ [(e.set "z_score" (.num (round2R z_score))).set "deviation"
                      (.str (if amount > mean then "high" else "low"))]
          else acc) [])

/-- Spec-side population mean of the coerced amounts. -/
def specMean (es : List Record) : ℚ :=
  (es.map amtOf).sum / ((es.map amtOf).length : ℚ)

/-- Spec-side population variance (divisor `N`) of the coerced amounts. -/
def specVariance (es : List Record) : ℚ :=
  ((es.map amtOf).map (fun x => (x - specMean es) ^ 2)).sum / ((es.map amtOf).length : ℚ)

/-- Spec-side population standard deviation. -/
noncomputable def specStd (es : List Record) : ℝ := Real.sqrt ((specVariance es : ℚ) : ℝ)

/-- Spec-side z-score of a record: `|amount - mean| / std_dev`. -/
noncomputable def specZ (es : List Record) (e : Record) : ℝ :=
  |((amtOf e : ℚ) : ℝ) - ((specMean es : ℚ) : ℝ)| / specStd es

/-- Spec-side anomaly record: the input record with `z_score` (the
ratio rounded to 2 decimals) and `deviation` (`"high"` iff the amount
is above the mean) attached, overwriting existing keys. -/
noncomputable def augmentAnomaly (es : List Record) (e : Record) : Record :=
  (e.set "z_score" (.num (round2R (specZ es e)))).set "deviation"
    (.str (if amtOf e > specMean es then "high" else "low"))

/-- Spec-side anomaly list: exactly the records whose z-score exceeds
the threshold, in input order, each augmented. -/
noncomputable def specAnomalies (es : List Record) (t : ℚ) : List Record :=
  (es.filter (fun e => decide (specZ es e > (t : ℝ)))).map (augmentAnomaly es)

/-- Python `str` of a value written into a CSV cell (the csv writer
renders `None` as the empty string). -/
def csvStr : Value → String
  | .null => ""
  | .num q => fmtRat q
  | .str s => s

/-- A CSV cell needs quoting (QUOTE_MINIMAL): it contains the
delimiter, the quote character, or a line-terminator character. -/
def needsQuote (s : String) : Bool :=
  s.data.any (fun ch => ch = ',' ∨ ch = '"' ∨ ch = '\r' ∨ ch = '\n')

/-- Double every quote character (csv escaping inside a quoted field). -/
def escChars : List Char → List Char
  | [] => []
  | ch :: t => if ch = '"' then '"' :: '"' :: escChars t else ch :: escChars t

/-- Render one CSV field with minimal quoting. -/
def renderField (s : String) : String :=
  if needsQuote s then "\"" ++ String.mk (escChars s.data) ++ "\"" else s

/-- Comma-join the second and later fields of a row, then `\r\n`. -/
def renderRowRest : List String → String
  | [] => "\r\n"
  | [f] => renderField f ++ "\r\n"
  | f :: fs => renderField f ++ "," ++ renderRowRest fs

/-- Render one CSV row with the writer's `\r\n` terminator; a row whose
single field is empty is written as `""` (as the csv module does, to
distinguish it from a row with no fields). -/
def renderRow : List String → String
  | [] => "\r\n"
  | [f] => (if f = "" then "\"\"" else renderField f) ++ "\r\n"
  | f :: fs => renderField f ++ "," ++ renderRowRest fs

/-- Write rows one after another (`writeheader` then `writerows`). -/
def renderRows : List (List String) → String
  | [] => ""
  | r :: rs => renderRow r ++ renderRows rs

/-- Insertion into a sorted list by Python string comparison. -/
def insertStr (s : String) : List String → List String
  | [] => [s]
  | t :: ts => if strLt s t then s :: t :: ts else t :: insertStr s ts

/-- Model of Python `sorted` on a list of strings. -/
def sortStrs : List String → List String
  | [] => []
  | s :: ss => insertStr s (sortStrs ss)

/-- Key deduplication (building the `all_keys` set; initial order is
irrelevant because the keys are sorted afterwards). -/
def dedupStr : List String → List String
  | [] => []
  | s :: ss => if s ∈ ss then dedupStr ss else s :: dedupStr ss

/-- `fieldnames = sorted(all_keys)`: the union of the keys of all
records, sorted. -/
def fieldnamesOf (expenses : List Record) : List String :=
  sortStrs (dedupStr ((expenses.map (fun e => e.map Prod.fst)).flatten))

/-- A `DictWriter` cell: `expense.get(key, restval="")`, with `None`
written as the empty string. -/
def cellOf (e : Record) (k : String) : String :=
  match e.lookup k with
  | none => ""
  | some v => csvStr v

/-- Embedding of `export_to_csv(expenses)` (a `csv.DictWriter` over the
sorted union of keys): empty input gives the empty string, otherwise a
header row followed by one row per record in input order. -/
def export_to_csv (expenses : List Record) : String :=
  if expenses = [] then ""
  else
    renderRows (fieldnamesOf expenses ::
      expenses.map (fun e => (fieldnamesOf expenses).map (cellOf e)))

/-- Modelled from the spec: the inside-quotes state of a CSV reader
("parsing the produced CSV back"): a doubled quote is a literal quote,
a single quote ends the field. -/
def parseQuotedF : List Char → List Char → List Char × List Char
  | [], acc => (acc, [])
  | ch :: rest, acc =>
    if ch = '"' then
      match rest with
      | '"' :: rest2 => parseQuotedF rest2 (acc ++ ['"'])
      | _ => (acc, rest)
    else parseQuotedF rest (acc ++ [ch])

/-- Modelled from the spec: an unquoted CSV field runs until a comma,
a `\r\n` terminator, or the end of input. -/
def parseUnquotedF : List Char → List Char → List Char × List Char
  | [], acc => (acc, [])
  | ch :: rest, acc =>
    if ch = ',' then (acc, ch :: rest)
    else if ch = '\r' then
      match rest with
      | '\n' :: _ => (acc, ch :: rest)
      | _ => parseUnquotedF rest (acc ++ [ch])
    else parseUnquotedF rest (acc ++ [ch])

/-- Modelled from the spec: one CSV field (quoted or unquoted). -/
def parseField : List Char → List Char × List Char
  | [] => ([], [])
  | ch :: rest => if ch = '"' then parseQuotedF rest [] else parseUnquotedF (ch :: rest) []

/-- Modelled from the spec: the comma-separated fields of a row up to
its `\r\n` terminator (or the end of input). -/
def parseFieldsF : ℕ → List Char → List (List Char) × List Char
  | 0, cs => ([], cs)
  | fuel + 1, cs =>
    let fr := parseField cs
    if fr.2.head? = some ',' then
      let rr := parseFieldsF fuel (fr.2.drop 1)
      (fr.1 :: rr.1, rr.2)
    else if fr.2.take 2 = ['\r', '\n'] then ([fr.1], fr.2.drop 2)
    else ([fr.1], fr.2)

/-- Modelled from the spec: one CSV row; an immediate `\r\n` is the
blank row `[]`, otherwise the row's fields. -/
def parseRowF (fuel : ℕ) (cs : List Char) : List (List Char) × List Char :=
  if cs.take 2 = ['\r', '\n'] then ([], cs.drop 2)
  else parseFieldsF fuel cs

/-- Modelled from the spec: all CSV rows of the input text. -/
def parseRowsF : ℕ → List Char → List (List (List Char))
  | 0, _ => []
  | fuel + 1, cs =>
    if cs = [] then []
    else
      let rr := parseRowF (cs.length + 1) cs
      rr.1 :: parseRowsF fuel rr.2

/-- Modelled from the spec: parse a CSV text into rows of fields. -/
def parseCSV (s : String) : List (List String) :=
  (parseRowsF (s.length + 1) s.data).map (fun r => r.map String.mk)

/-- Modelled from the spec: read the produced CSV back into records by
header (each data row zipped with the header row). -/
def parseRecords (s : String) : List (List (String × String)) :=
  match parseCSV s with
  | [] => []
  | header :: rows => rows.map (fun r => header.zip r)

/-- The suffix that legally follows a rendered CSV field. -/
def CSVBoundary (t : List Char) : Prop :=
  t = [] ∨ t.head? = some ',' ∨ t.take 2 = ['\r', '\n']

theorem analyzeStep_ok (gb : String) (st : AccState) (e : Record)
    (h : amountOk e = true) : analyzeStep gb st e = .ok (pureStep gb st e) := by
  unfold analyzeStep pureStep gkOf pmOf dtOf
  unfold amountOk at h
  cases hv : (getOr e "amount" (.num 0)).asNum with
  | none => rw [hv] at h; simp at h
  | some q => simp [amtOf, hv]

theorem analyzeStep_err (gb : String) (st : AccState) (e : Record)
    (h : amountOk e = false) :
    analyzeStep gb st e = .error "TypeError: unsupported operand type for +" := by
  unfold analyzeStep
  unfold amountOk at h
  cases hv : (getOr e "amount" (.num 0)).asNum with
  | none => simp [hv]
  | some q => rw [hv] at h; simp at h

/-- The accumulation loop succeeds iff every (coerced) amount is a
number, and then computes the pure fold. -/
theorem foldlM_analyzeStep (gb : String) :
    ∀ (es : List Record) (st : AccState),
    es.foldlM (analyzeStep gb) st =
      if es.all amountOk then .ok (es.foldl (pureStep gb) st)
      else .error "TypeError: unsupported operand type for +"
  | [], st => rfl
  | e :: es, st => by
    rw [List.foldlM_cons]
    cases hok : amountOk e with
    | true =>
        rw [analyzeStep_ok gb st e hok]
        show List.foldlM (analyzeStep gb) (pureStep gb st e) es = _
        rw [foldlM_analyzeStep gb es (pureStep gb st e)]
        simp [hok]
    | false =>
        rw [analyzeStep_err gb st e hok]
        show Except.error _ = _
        simp [hok]

/-- Characterization of a successful non-empty analysis: all amounts
were numeric, the trend block succeeded, and the output is the result
dict over the pure accumulator state. -/
theorem analyze_ok_char (es : List Record) (gb c : String)
    (out : List (String × OutVal)) (hne : es ≠ [])
    (h : analyze_expenses es gb c = .ok out) :
    es.all amountOk = true ∧
    ∃ trend, trendInsights es (finalState gb es).daily = .ok trend ∧
      out = analyzeResult es gb c trend := by
  unfold analyze_expenses at h
  rw [if_neg hne, foldlM_analyzeStep] at h
  by_cases hall : es.all amountOk = true
  · rw [if_pos hall] at h
    refine ⟨hall, ?_⟩
    replace h :
        (match trendInsights es (finalState gb es).daily with
         | .error m => (Except.error m : Except String (List (String × OutVal)))
         | .ok trend => .ok (analyzeResult es gb c trend)) = .ok out := h
    cases htr : trendInsights es (finalState gb es).daily with
    | error m => rw [htr] at h; simp at h
    | ok trend =>
        rw [htr] at h
        simp only [Except.ok.injEq] at h
        exact ⟨trend, rfl, h.symm⟩
  · rw [if_neg hall] at h
    simp at h

/-- A non-empty analysis with a non-numeric truthy amount raises. -/
theorem analyze_err_char (es : List Record) (gb c : String) (hne : es ≠ [])
    (hbad : ¬ es.all amountOk = true) :
    analyze_expenses es gb c = .error "TypeError: unsupported operand type for +" := by
  unfold analyze_expenses
  rw [if_neg hne, foldlM_analyzeStep, if_neg hbad]

theorem sumB_bumpBreakdown (b : List (Value × ℚ × ℕ)) (k : Value) (a : ℚ) :
    sumB (bumpBreakdown b k a) = sumB b + a := by
  induction b with
  | nil => simp [bumpBreakdown, sumB]
  | cons hd tl ih =>
    obtain ⟨k', a', c'⟩ := hd
    by_cases hk : k' = k
    · simp [bumpBreakdown, hk, sumB]; ring
    · simp only [bumpBreakdown, if_neg hk, sumB, List.map_cons, List.sum_cons] at ih ⊢
      rw [ih]; ring

theorem total_foldl (gb : String) :
    ∀ (es : List Record) (st : AccState),
      (es.foldl (pureStep gb) st).total = st.total + (es.map amtOf).sum
  | [], st => by simp
  | e :: es, st => by
    rw [List.foldl_cons, total_foldl gb es]
    simp only [pureStep, List.map_cons, List.sum_cons]
    ring

theorem sumB_foldl (gb : String) :
    ∀ (es : List Record) (st : AccState),
      sumB (es.foldl (pureStep gb) st).breakdown =
        sumB st.breakdown + (es.map amtOf).sum
  | [], st => by simp
  | e :: es, st => by
    rw [List.foldl_cons, sumB_foldl gb es]
    simp only [pureStep, List.map_cons, List.sum_cons]
    rw [sumB_bumpBreakdown]
    ring

theorem bumpBreakdown_ne_nil (b : List (Value × ℚ × ℕ)) (k : Value) (a : ℚ) :
    bumpBreakdown b k a ≠ [] := by
  cases b with
  | nil => simp [bumpBreakdown]
  | cons hd tl =>
    obtain ⟨k', a', c'⟩ := hd
    by_cases hk : k' = k <;> simp [bumpBreakdown, hk]

theorem bumpAmount_ne_nil (m : List (Value × ℚ)) (k : Value) (a : ℚ) :
    bumpAmount m k a ≠ [] := by
  cases m with
  | nil => simp [bumpAmount]
  | cons hd tl =>
    obtain ⟨k', a'⟩ := hd
    by_cases hk : k' = k <;> simp [bumpAmount, hk]

theorem breakdown_foldl_ne (gb : String) :
    ∀ (es : List Record) (st : AccState), st.breakdown ≠ [] →
      (es.foldl (pureStep gb) st).breakdown ≠ []
  | [], _st, h => h
  | e :: es, st, _ =>
    breakdown_foldl_ne gb es (pureStep gb st e)
      (bumpBreakdown_ne_nil st.breakdown (gkOf gb e) (amtOf e))

theorem payments_foldl_ne (gb : String) :
    ∀ (es : List Record) (st : AccState), st.payments ≠ [] →
      (es.foldl (pureStep gb) st).payments ≠ []
  | [], _st, h => h
  | e :: es, st, _ =>
    payments_foldl_ne gb es (pureStep gb st e)
      (bumpAmount_ne_nil st.payments (pmOf e) (amtOf e))

theorem finalState_breakdown_ne (gb : String) (es : List Record) (hne : es ≠ []) :
    (finalState gb es).breakdown ≠ [] := by
  cases es with
  | nil => exact absurd rfl hne
  | cons e es =>
    exact breakdown_foldl_ne gb es _
      (bumpBreakdown_ne_nil [] (gkOf gb e) (amtOf e))

theorem finalState_payments_ne (gb : String) (es : List Record) (hne : es ≠ []) :
    (finalState gb es).payments ≠ [] := by
  cases es with
  | nil => exact absurd rfl hne
  | cons e es =>
    exact payments_foldl_ne gb es _
      (bumpAmount_ne_nil [] (pmOf e) (amtOf e))

theorem finalState_total (gb : String) (es : List Record) :
    (finalState gb es).total = (es.map amtOf).sum := by
  unfold finalState
  rw [total_foldl]
  simp

theorem finalState_sumB (gb : String) (es : List Record) :
    sumB (finalState gb es).breakdown = (es.map amtOf).sum := by
  unfold finalState
  rw [sumB_foldl]
  simp [sumB]

/-- On a non-empty input with all amounts numeric, `analyze_expenses`
is the trend computation followed by assembling the result dict. -/
theorem analyze_ne_eq (es : List Record) (gb c : String) (hne : es ≠ [])
    (hall : es.all amountOk = true) :
    analyze_expenses es gb c =
      match trendInsights es (finalState gb es).daily with
      | .error m => .error m
      | .ok trend => .ok (analyzeResult es gb c trend) := by
  unfold analyze_expenses
  rw [if_neg hne, foldlM_analyzeStep, if_pos hall]
  rfl

theorem cmpLt_ok_str (a b : Value) (ha : a.isStr = true) (hb : b.isStr = true) :
    ∃ bo, Value.cmpLt a b = .ok bo := by
  cases a <;> cases b <;> first
    | exact ⟨_, rfl⟩
    | simp [Value.isStr] at ha hb

theorem cmpLt_ok_num (a b : Value) (ha : a.isNum = true) (hb : b.isNum = true) :
    ∃ bo, Value.cmpLt a b = .ok bo := by
  cases a <;> cases b <;> first
    | exact ⟨_, rfl⟩
    | simp [Value.isNum] at ha hb

theorem insertVal_kind_ok (p : Value → Bool)
    (hp : ∀ a b, p a = true → p b = true → ∃ bo, Value.cmpLt a b = .ok bo)
    (v : Value) (hv : p v = true) :
    ∀ l : List Value, l.all p = true →
      ∃ r, insertVal v l = .ok r ∧ r.all p = true
  | [], _ => ⟨[v], rfl, by simp [hv]⟩
  | w :: ws, hl => by
    simp only [List.all_cons, Bool.and_eq_true] at hl
    obtain ⟨bo, hbo⟩ := hp v w hv hl.1
    obtain ⟨r, hr, hrall⟩ := insertVal_kind_ok p hp v hv ws hl.2
    cases bo with
    | true =>
        refine ⟨v :: w :: ws, ?_, ?_⟩
        · simp [insertVal, hbo]
        · simp [hv, hl.1, hl.2]
    | false =>
        refine ⟨w :: r, ?_, ?_⟩
        · simp [insertVal, hbo, hr]
        · simp [hl.1, hrall]

theorem sortValuesE_kind_ok (p : Value → Bool)
    (hp : ∀ a b, p a = true → p b = true → ∃ bo, Value.cmpLt a b = .ok bo) :
    ∀ l : List Value, l.all p = true →
      ∃ r, sortValuesE l = .ok r ∧ r.all p = true
  | [], _ => ⟨[], rfl, rfl⟩
  | v :: vs, hl => by
    simp only [List.all_cons, Bool.and_eq_true] at hl
    obtain ⟨r, hr, hrall⟩ := sortValuesE_kind_ok p hp vs hl.2
    obtain ⟨r', hr', hrall'⟩ := insertVal_kind_ok p hp v hl.1 r hrall
    exact ⟨r', by simp [sortValuesE, hr, hr'], hrall'⟩

theorem dedupKeep_all (p : Value → Bool) :
    ∀ l : List Value, l.all p = true → (dedupKeep l).all p = true
  | [], _ => rfl
  | v :: vs, hl => by
    simp only [List.all_cons, Bool.and_eq_true] at hl
    by_cases hm : v ∈ vs
    · simpa [dedupKeep, hm] using dedupKeep_all p vs hl.2
    · simp [dedupKeep, hm, hl.1, dedupKeep_all p vs hl.2]

/-- The trend block cannot raise when all truthy dates in the input are
of one comparable kind (all strings or all numbers). -/
theorem trendInsights_kind_ok (es : List Record) (daily : List (Value × ℚ))
    (hd : (datesOf es).all Value.isStr = true ∨ (datesOf es).all Value.isNum = true) :
    ∃ tr, trendInsights es daily = .ok tr := by
  unfold trendInsights
  by_cases hlen : 2 ≤ (es.filter hasDate).length
  · rw [if_pos hlen]
    have hsorted : ∃ r, sortValuesE (dedupKeep (datesOf es)) = .ok r := by
      cases hd with
      | inl hstr =>
          obtain ⟨r, hr, _⟩ :=
            sortValuesE_kind_ok Value.isStr cmpLt_ok_str (dedupKeep (datesOf es))
              (dedupKeep_all Value.isStr (datesOf es) hstr)
          exact ⟨r, hr⟩
      | inr hnum =>
          obtain ⟨r, hr, _⟩ :=
            sortValuesE_kind_ok Value.isNum cmpLt_ok_num (dedupKeep (datesOf es))
              (dedupKeep_all Value.isNum (datesOf es) hnum)
          exact ⟨r, hr⟩
    obtain ⟨dates, hdates⟩ := hsorted
    rw [show dedupKeep ((es.filter hasDate).map (fun e => getOr e "date" (.str "unknown")))
          = dedupKeep (datesOf es) from rfl, hdates]
    dsimp only
    split_ifs <;> exact ⟨_, rfl⟩
  · rw [if_neg hlen]
    exact ⟨[], rfl⟩

theorem find?_ext (p q : α → Bool) (h : ∀ a, p a = q a) :
    ∀ l : List α, l.find? p = l.find? q
  | [] => rfl
  | a :: l => by
    rw [List.find?_cons, List.find?_cons, h a]
    cases q a
    · exact find?_ext p q h l
    · rfl

theorem pyMax1_find? (key : α → ℚ) :
    ∀ (xs : List α) (m : α),
      some (pyMax1 key m xs) =
        (m :: xs).find? (fun x => (m :: xs).all (fun y => key y ≤ key x))
  | [], m => by
    simp [pyMax1, List.find?_cons]
  | x :: xs, m => by
    by_cases hlt : key m < key x
    · have h1 : pyMax1 key m (x :: xs) = pyMax1 key x xs := by
        simp [pyMax1, hlt]
      rw [h1, pyMax1_find? key xs x]
      have hxm : ¬ (key x ≤ key m) := not_le.mpr hlt
      have hPm : ((m :: x :: xs).all (fun y => key y ≤ key m) : Bool) = false := by
        cases hh : ((m :: x :: xs).all (fun y => key y ≤ key m) : Bool)
        · rfl
        · exact absurd (by simpa using List.all_eq_true.mp hh x (by simp)) hxm
      have hext : ∀ z, ((x :: xs).all (fun y => key y ≤ key z) : Bool)
          = ((m :: x :: xs).all (fun y => key y ≤ key z)) := by
        intro z
        cases hxz : ((x :: xs).all (fun y => key y ≤ key z) : Bool) with
        | true =>
          have hxle : key x ≤ key z := by
            simpa using List.all_eq_true.mp hxz x (by simp)
          have hmz : key m ≤ key z := le_of_lt (lt_of_lt_of_le hlt hxle)
          rw [eq_comm, List.all_cons]
          simp [hmz, hxz]
        | false =>
          rw [eq_comm, List.all_cons, hxz]
          simp
      rw [find?_ext _ _ hext (x :: xs)]
      conv_rhs => rw [List.find?_cons]
      rw [hPm]
    · have hxm : key x ≤ key m := not_lt.mp hlt
      have h1 : pyMax1 key m (x :: xs) = pyMax1 key m xs := by
        simp [pyMax1, hlt]
      rw [h1, pyMax1_find? key xs m]
      have hext : ∀ z, ((m :: xs).all (fun y => key y ≤ key z) : Bool)
          = ((m :: x :: xs).all (fun y => key y ≤ key z)) := by
        intro z
        simp only [List.all_cons]
        by_cases hmz : key m ≤ key z
        · have hxz : key x ≤ key z := le_trans hxm hmz
          simp [hmz, hxz]
        · simp [hmz]
      rw [find?_ext _ _ hext (m :: xs)]
      conv_lhs => rw [List.find?_cons]
      conv_rhs => rw [List.find?_cons]
      cases hQm : ((m :: x :: xs).all (fun y => key y ≤ key m) : Bool) with
      | true => rfl
      | false =>
        dsimp only
        have hQx : ((m :: x :: xs).all (fun y => key y ≤ key x) : Bool) = false := by
          cases hh : ((m :: x :: xs).all (fun y => key y ≤ key x) : Bool)
          · rfl
          · have hall := List.all_eq_true.mp hh
            have : ((m :: x :: xs).all (fun y => key y ≤ key m) : Bool) = true := by
              refine List.all_eq_true.mpr ?_
              intro y hy
              have h' := hall y hy
              simp only [decide_eq_true_eq] at h' ⊢
              exact le_trans h' hxm
            rw [this] at hQm
            cases hQm
        conv_rhs => rw [List.find?_cons]
        rw [hQx]

theorem pyMax_eq_firstMaxBy (key : α → ℚ) (l : List α) :
    pyMax key l = firstMaxBy key l := by
  cases l with
  | nil => rfl
  | cons x xs => exact pyMax1_find? key xs x

theorem head?_append_str (s t : String) (c : Char) (h : s.data.head? = some c) :
    (s ++ t).data.head? = some c := by
  rw [String.data_append, List.head?_append, h]
  rfl

theorem str_ne_of_head (a b : String) (ca cb : Char)
    (ha : a.data.head? = some ca) (hb : b.data.head? = some cb) (hc : ca ≠ cb) :
    a ≠ b := by
  intro h
  rw [h, hb] at ha
  exact hc (Option.some.inj ha).symm

theorem lookupAmt_nil (d : Value) : lookupAmt [] d = 0 := rfl

theorem lookupAmt_cons (k : Value) (v : ℚ) (l : List (Value × ℚ)) (d : Value) :
    lookupAmt ((k, v) :: l) d = if d = k then v else lookupAmt l d := by
  by_cases h : d = k
  · subst h; simp [lookupAmt, List.lookup]
  · have hb : (d == k) = false := beq_eq_false_iff_ne.mpr h
    simp [lookupAmt, List.lookup, hb, h]

theorem lookupAmt_bumpAmount (m : List (Value × ℚ)) (k : Value) (a : ℚ) (d : Value) :
    lookupAmt (bumpAmount m k a) d = lookupAmt m d + (if d = k then a else 0) := by
  induction m with
  | nil =>
    rw [show bumpAmount [] k a = [(k, a)] from rfl, lookupAmt_cons]
    by_cases hdk : d = k <;> simp [hdk, lookupAmt_nil]
  | cons hd tl ih =>
    obtain ⟨k', a'⟩ := hd
    by_cases hk : k' = k
    · subst hk
      rw [show bumpAmount ((k', a') :: tl) k' a = (k', a' + a) :: tl from by simp [bumpAmount],
          lookupAmt_cons, lookupAmt_cons]
      by_cases hdk : d = k'
      · simp [hdk]
      · simp [hdk]
    · rw [show bumpAmount ((k', a') :: tl) k a = (k', a') :: bumpAmount tl k a from by
          simp [bumpAmount, hk],
        lookupAmt_cons, lookupAmt_cons]
      by_cases hdk' : d = k'
      · have hdk : ¬ d = k := fun hc => hk (by rw [← hdk', hc])
        simp [hdk', hdk, hk]
      · simp [hdk', ih]

theorem dateTotal_nil (d : Value) : dateTotal [] d = 0 := rfl

theorem dateTotal_cons (e : Record) (es : List Record) (d : Value) :
    dateTotal (e :: es) d = (if d = dtOf e then amtOf e else 0) + dateTotal es d := by
  unfold dateTotal
  by_cases hd : dtOf e = d
  · subst hd
    simp [List.filter_cons]
  · have hd' : ¬ d = dtOf e := fun hc => hd hc.symm
    simp [List.filter_cons, hd, hd']

theorem daily_foldl (gb : String) :
    ∀ (es : List Record) (st : AccState) (d : Value),
      lookupAmt (es.foldl (pureStep gb) st).daily d
        = lookupAmt st.daily d + dateTotal es d
  | [], st, d => by simp [dateTotal_nil]
  | e :: es, st, d => by
    rw [List.foldl_cons, daily_foldl gb es]
    rw [show (pureStep gb st e).daily = bumpAmount st.daily (dtOf e) (amtOf e) from rfl,
        lookupAmt_bumpAmount, dateTotal_cons]
    ring

theorem finalState_daily (gb : String) (es : List Record) (d : Value) :
    lookupAmt (finalState gb es).daily d = dateTotal es d := by
  unfold finalState
  rw [daily_foldl]
  simp [lookupAmt_nil]

theorem insertVal_length (v : Value) :
    ∀ (l r : List Value), insertVal v l = .ok r → r.length = l.length + 1
  | [], r, h => by
    have hr := (Except.ok.inj h).symm
    subst hr
    rfl
  | w :: ws, r, h => by
    unfold insertVal at h
    cases hc : Value.cmpLt v w with
    | error m => rw [hc] at h; exact Except.noConfusion h
    | ok b =>
      rw [hc] at h
      cases b with
      | true =>
        have hr := (Except.ok.inj h).symm
        subst hr
        rfl
      | false =>
        cases hrec : insertVal v ws with
        | error m => rw [hrec] at h; exact Except.noConfusion h
        | ok rest =>
          rw [hrec] at h
          have hr := (Except.ok.inj h).symm
          subst hr
          simp [insertVal_length v ws rest hrec]

theorem sortValuesE_length : ∀ (l r : List Value), sortValuesE l = .ok r → r.length = l.length
  | [], r, h => by
    have hr := (Except.ok.inj h).symm
    subst hr
    rfl
  | v :: vs, r, h => by
    unfold sortValuesE at h
    cases hs : sortValuesE vs with
    | error m => rw [hs] at h; exact Except.noConfusion h
    | ok rest =>
      rw [hs] at h
      rw [insertVal_length v rest r h, sortValuesE_length vs rest hs]
      rfl

theorem dedupKeep_length_le : ∀ l : List Value, (dedupKeep l).length ≤ l.length
  | [] => le_refl _
  | v :: vs => by
    by_cases h : v ∈ vs
    · rw [show dedupKeep (v :: vs) = dedupKeep vs from by simp [dedupKeep, h]]
      exact le_trans (dedupKeep_length_le vs) (by simp)
    · rw [show dedupKeep (v :: vs) = v :: dedupKeep vs from by simp [dedupKeep, h]]
      simpa using dedupKeep_length_le vs

theorem sortedDates_length_le (es : List Record) :
    (sortedDates es).length ≤ (es.filter hasDate).length := by
  unfold sortedDates
  cases hs : sortValuesE (dedupKeep (datesOf es)) with
  | error m => simp
  | ok dates =>
    rw [sortValuesE_length _ _ hs]
    exact le_trans (dedupKeep_length_le _) (by simp [datesOf])

/-- The trend block of the code computes exactly the spec-side trend. -/
theorem trend_ok_eq (gb : String) (es : List Record) (tr : List String)
    (htr : trendInsights es (finalState gb es).daily = .ok tr) :
    tr = specTrend es := by
  unfold trendInsights at htr
  by_cases hd2 : 2 ≤ (es.filter hasDate).length
  · rw [if_pos hd2] at htr
    rw [show ((es.filter hasDate).map fun e => getOr e "date" (Value.str "unknown"))
          = datesOf es from rfl] at htr
    cases hs : sortValuesE (dedupKeep (datesOf es)) with
    | error m => rw [hs] at htr; exact Except.noConfusion htr
    | ok dates =>
      rw [hs] at htr
      have hsd : sortedDates es = dates := by unfold sortedDates; rw [hs]
      have hdf : lookupAmt (finalState gb es).daily = dateTotal es :=
        funext (finalState_daily gb es)
      rw [hdf] at htr
      unfold specTrend firstHalfSum secondHalfSum
      rw [hsd]
      dsimp only at htr
      split_ifs at htr ⊢ <;> exact (Except.ok.inj htr).symm
  · rw [if_neg hd2] at htr
    have h0 := (Except.ok.inj htr).symm
    unfold specTrend
    rw [if_neg (by
      have := sortedDates_length_le es
      omega)]
    exact h0

theorem coerceAmounts_eq : ∀ es : List Record,
    coerceAmounts es =
      if es.all amountOk then .ok (es.map amtOf)
      else .error "TypeError: unsupported operand type for +"
  | [] => rfl
  | e :: es => by
    unfold coerceAmounts
    cases hv : (getOr e "amount" (.num 0)).asNum with
    | none =>
      have hok : amountOk e = false := by unfold amountOk; rw [hv]; rfl
      simp [hok]
    | some q =>
      have hok : amountOk e = true := by unfold amountOk; rw [hv]; rfl
      have hamt : amtOf e = q := by unfold amtOf; rw [hv]
      rw [coerceAmounts_eq es]
      by_cases hall : es.all amountOk
      · simp [hall, hok, hamt]
      · simp [hall, hok]

theorem lookup_set_self (r : Record) (k : String) (v : Value) :
    (Record.set r k v).lookup k = some v := by
  induction r with
  | nil => simp [Record.set, List.lookup]
  | cons hd tl ih =>
    obtain ⟨k', v'⟩ := hd
    by_cases hk : k' = k
    · subst hk; simp [Record.set, List.lookup]
    · have hb : (k == k') = false := beq_eq_false_iff_ne.mpr (fun hc => hk hc.symm)
      simp [Record.set, hk, List.lookup, hb, ih]

theorem lookup_set_ne (r : Record) (k k' : String) (v : Value) (h : k' ≠ k) :
    (Record.set r k v).lookup k' = r.lookup k' := by
  induction r with
  | nil =>
    have hb : (k' == k) = false := beq_eq_false_iff_ne.mpr h
    simp [Record.set, List.lookup, hb]
  | cons hd tl ih =>
    obtain ⟨k'', v''⟩ := hd
    by_cases hk : k'' = k
    · subst hk
      have hb : (k' == k'') = false := beq_eq_false_iff_ne.mpr h
      simp [Record.set, List.lookup, hb]
    · simp [Record.set, hk, List.lookup, ih]

theorem sum_sq_eq_zero_iff : ∀ l : List ℚ, ((l.map (fun x => x ^ 2)).sum = 0 ↔ ∀ x ∈ l, x = 0)
  | [] => by simp
  | x :: l => by
    rw [List.map_cons, List.sum_cons]
    have hx : (0 : ℚ) ≤ x ^ 2 := sq_nonneg x
    have hs : (0 : ℚ) ≤ (l.map (fun x => x ^ 2)).sum := by
      apply List.sum_nonneg
      intro y hy
      simp only [List.mem_map] at hy
      obtain ⟨z, _, rfl⟩ := hy
      exact sq_nonneg z
    rw [add_eq_zero_iff_of_nonneg hx hs, sum_sq_eq_zero_iff l]
    simp [pow_eq_zero_iff]

theorem sum_const_of_all_eq (a : ℚ) :
    ∀ l : List ℚ, (∀ x ∈ l, x = a) → l.sum = l.length * a
  | [], _ => by simp
  | x :: l, h => by
    rw [List.sum_cons, sum_const_of_all_eq a l (fun y hy => h y (by simp [hy]))]
    rw [h x (by simp)]
    simp [List.length_cons]
    ring

theorem variance_zero_iff (es : List Record) (hne : es ≠ []) :
    (specVariance es = 0 ↔ ∀ x ∈ es.map amtOf, ∀ y ∈ es.map amtOf, x = y) := by
  have hlne : es.map amtOf ≠ [] := by simpa using hne
  have hn : ((es.map amtOf).length : ℚ) ≠ 0 := by
    have hpos := List.length_pos.mpr hlne
    exact Nat.cast_ne_zero.mpr (Nat.pos_iff_ne_zero.mp hpos)
  have hmm : ∀ (l : List ℚ) (m : ℚ),
      (l.map fun x => (x - m) ^ 2) = ((l.map fun x => x - m).map fun y => y ^ 2) := by
    intro l m
    rw [List.map_map]
    rfl
  unfold specVariance
  rw [div_eq_zero_iff]
  constructor
  · rintro (hsum | hden)
    · rw [hmm] at hsum
      have hall := (sum_sq_eq_zero_iff _).mp hsum
      intro x hx y hy
      have hx0 : x - specMean es = 0 := hall _ (List.mem_map_of_mem _ hx)
      have hy0 : y - specMean es = 0 := hall _ (List.mem_map_of_mem _ hy)
      have hxm : x = specMean es := by linarith
      have hym : y = specMean es := by linarith
      rw [hxm, hym]
    · exact absurd hden hn
  · intro hEq
    left
    obtain ⟨a, l', hl⟩ : ∃ a l', es.map amtOf = a :: l' := by
      cases hml : es.map amtOf with
      | nil => exact absurd hml hlne
      | cons a l' => exact ⟨a, l', rfl⟩
    have hallA : ∀ x ∈ es.map amtOf, x = a := fun x hx =>
      hEq x hx a (by rw [hl]; simp)
    have hmean : specMean es = a := by
      have hn' : ((es.map amtOf).length : ℚ) ≠ 0 := hn
      unfold specMean
      rw [sum_const_of_all_eq a _ hallA]
      rw [mul_comm, mul_div_assoc, div_self hn', mul_one]
    rw [hmm]
    apply (sum_sq_eq_zero_iff _).mpr
    intro y hy
    rw [List.mem_map] at hy
    obtain ⟨x, hx, rfl⟩ := hy
    rw [hallA x hx, hmean]
    ring


theorem foldl_ite_append {α β : Type} (P : α → Prop) [DecidablePred P] (f : α → β) :
    ∀ (l : List α) (acc : List β),
      l.foldl (fun acc e => if P e then acc ++ [f e] else acc) acc
        = acc ++ (l.filter (fun e => decide (P e))).map f
  | [], acc => by simp
  | e :: l, acc => by
    rw [List.foldl_cons]
    by_cases hp : P e
    · rw [if_pos hp, foldl_ite_append P f l]
      simp [List.filter_cons, hp]
    · rw [if_neg hp, foldl_ite_append P f l]
      simp [List.filter_cons, hp]

theorem detect_small (es : List Record) (t : ℚ) (h : es.length < 3) :
    detect_anomalies es t = .ok [] := by
  unfold detect_anomalies
  rw [if_pos h]

theorem specVariance_nonneg (es : List Record) : 0 ≤ specVariance es := by
  unfold specVariance
  apply div_nonneg
  · apply List.sum_nonneg
    intro x hx
    rw [List.mem_map] at hx
    obtain ⟨y, _, rfl⟩ := hx
    exact sq_nonneg _
  · exact Nat.cast_nonneg _

theorem detect_zero_var (es : List Record) (t : ℚ) (hlen : ¬ es.length < 3)
    (hA : es.all amountOk = true) (hvar : specVariance es = 0) :
    detect_anomalies es t = .ok [] := by
  unfold detect_anomalies
  rw [if_neg hlen, coerceAmounts_eq, if_pos hA]
  show (if specStd es = 0 then (Except.ok [] : Except String (List Record)) else _) = Except.ok []
  rw [if_pos (by unfold specStd; rw [hvar]; simp)]

theorem detect_main_eq (es : List Record) (t : ℚ) (hlen : ¬ es.length < 3)
    (hA : es.all amountOk = true) (hvar : specVariance es ≠ 0) :
    detect_anomalies es t = .ok (specAnomalies es t) := by
  have hsd : specStd es ≠ 0 := by
    unfold specStd
    rw [Real.sqrt_ne_zero']
    exact_mod_cast lt_of_le_of_ne (specVariance_nonneg es) (Ne.symm hvar)
  unfold detect_anomalies
  rw [if_neg hlen, coerceAmounts_eq, if_pos hA]
  show (if specStd es = 0 then (Except.ok [] : Except String (List Record))
        else .ok (es.foldl (fun acc e =>
          if specZ es e > (t : ℝ) then acc ++ [augmentAnomaly es e] else acc) []))
      = .ok (specAnomalies es t)
  rw [if_neg hsd]
  refine congrArg Except.ok ?_
  rw [foldl_ite_append (fun e => specZ es e > (t : ℝ)) (augmentAnomaly es) es []]
  simp [specAnomalies]

theorem CSVBoundary.head_ne_quote {t : List Char} (h : CSVBoundary t) :
    t.head? ≠ some '"' := by
  rcases h with h | h | h
  · subst h; simp
  · rw [h]; intro hc; injection hc with hc; exact absurd hc (by decide)
  · cases t with
    | nil => simp
    | cons a t' =>
      cases t' with
      | nil => simp [List.take] at h
      | cons b t'' =>
        simp only [List.take, List.cons.injEq] at h
        obtain ⟨ha, _⟩ := h
        subst ha
        intro hc
        injection hc with hc
        exact absurd hc (by decide)

theorem parseQuotedF_esc (rest : List Char) (hq : rest.head? ≠ some '"') :
    ∀ (cs acc : List Char),
      parseQuotedF (escChars cs ++ '"' :: rest) acc = (acc ++ cs, rest)
  | [], acc => by
    cases rest with
    | nil => simp [escChars, parseQuotedF]
    | cons r rs =>
      have hr : r ≠ '"' := fun h => hq (by rw [show (r :: rs).head? = some r from rfl, h])
      simp [escChars, parseQuotedF, hr]
  | c :: cs, acc => by
    by_cases hc : c = '"'
    · subst hc
      have ih := parseQuotedF_esc rest hq cs (acc ++ ['"'])
      simp [escChars, parseQuotedF, ih]
    · have ih := parseQuotedF_esc rest hq cs (acc ++ [c])
      rw [show escChars (c :: cs) = c :: escChars cs from by simp [escChars, hc]]
      rw [List.cons_append]
      rw [parseQuotedF.eq_def]
      simp only [if_neg hc]
      rw [ih]
      simp


theorem parseUnquotedF_boundary (t : List Char) (acc : List Char) (hb : CSVBoundary t) :
    parseUnquotedF t acc = (acc, t) := by
  rcases hb with h | h | h
  · subst h; simp [parseUnquotedF]
  · cases t with
    | nil => simp at h
    | cons a t' =>
      have ha : a = ',' := by simpa using h
      subst ha
      rw [parseUnquotedF.eq_def]
      simp
  · cases t with
    | nil => simp [List.take] at h
    | cons a t' =>
      cases t' with
      | nil => simp [List.take] at h
      | cons b t'' =>
        simp only [List.take, List.cons.injEq, and_true] at h
        obtain ⟨ha, hb2⟩ := h
        subst ha
        subst hb2
        rw [parseUnquotedF.eq_def]
        simp

theorem parseUnquotedF_clean :
    ∀ (cs acc t : List Char),
      (∀ ch ∈ cs, ¬(ch = ',' ∨ ch = '"' ∨ ch = '\r' ∨ ch = '\n')) →
      CSVBoundary t →
      parseUnquotedF (cs ++ t) acc = (acc ++ cs, t)
  | [], acc, t, _, hb => by
    rw [List.nil_append, parseUnquotedF_boundary t acc hb]
    simp
  | c :: cs, acc, t, hclean, hb => by
    have hc := hclean c (by simp)
    push_neg at hc
    obtain ⟨h1, _, h3, _⟩ := hc
    rw [List.cons_append, parseUnquotedF.eq_def]
    simp only [if_neg h1, if_neg h3]
    rw [parseUnquotedF_clean cs (acc ++ [c]) t (fun ch hch => hclean ch (by simp [hch])) hb]
    simp

theorem string_data_ne_nil (f : String) (hf : f ≠ "") : f.data ≠ [] := by
  intro h
  apply hf
  have h2 : f = String.mk f.data := rfl
  rw [h2, h]

theorem needsQuote_false_clean (f : String) (hq : needsQuote f = false) :
    ∀ ch ∈ f.data, ¬(ch = ',' ∨ ch = '"' ∨ ch = '\r' ∨ ch = '\n') := by
  intro ch hch
  unfold needsQuote at hq
  rw [List.any_eq_false] at hq
  have := hq ch hch
  simpa using this

theorem parseField_renderField (f : String) (t : List Char) (hb : CSVBoundary t) :
    parseField ((renderField f).data ++ t) = (f.data, t) := by
  by_cases hq : needsQuote f = true
  · have hdata : (renderField f).data ++ t = '"' :: (escChars f.data ++ '"' :: t) := by
      simp [renderField, hq, String.data_append]
    rw [hdata, parseField.eq_def]
    simp only [if_pos rfl]
    rw [parseQuotedF_esc t hb.head_ne_quote f.data []]
    simp
  · have hq' : needsQuote f = false := by
      cases h : needsQuote f
      · rfl
      · exact absurd h hq
    have hclean := needsQuote_false_clean f hq'
    have hdata : (renderField f).data = f.data := by
      simp [renderField, hq']
    rw [hdata]
    cases hfd : f.data with
    | nil =>
      rw [List.nil_append]
      cases t with
      | nil => simp [parseField]
      | cons a t' =>
        have ha : a ≠ '"' := by
          intro h
          exact hb.head_ne_quote (by rw [h]; rfl)
        rw [parseField.eq_def]
        simp only [if_neg ha]
        rw [parseUnquotedF_boundary (a :: t') [] hb]
    | cons c0 rest0 =>
      have hc0 := hclean c0 (by rw [hfd]; simp)
      push_neg at hc0
      obtain ⟨_, h2, _, _⟩ := hc0
      rw [List.cons_append, parseField.eq_def]
      simp only [if_neg h2]
      have hclean' : ∀ ch ∈ c0 :: rest0, ¬(ch = ',' ∨ ch = '"' ∨ ch = '\r' ∨ ch = '\n') := by
        rw [← hfd]
        exact hclean
      rw [show c0 :: (rest0 ++ t) = (c0 :: rest0) ++ t from rfl]
      rw [parseUnquotedF_clean (c0 :: rest0) [] t hclean' hb]
      simp


/-- Whatever a field renders to, its first character is never `\r`
(quoted fields start with a quote; unquoted fields have no specials). -/
theorem renderField_head_ne_cr (f : String) (c0 : Char) (r0 : List Char)
    (h : (renderField f).data = c0 :: r0) : c0 ≠ '\r' := by
  by_cases hq : needsQuote f = true
  · have hdata : (renderField f).data = '"' :: (escChars f.data ++ ['"']) := by
      simp [renderField, hq, String.data_append]
    rw [hdata] at h
    injection h with h1 _
    rw [← h1]
    decide
  · have hq' : needsQuote f = false := by
      cases hh : needsQuote f
      · rfl
      · exact absurd hh hq
    have hdata : (renderField f).data = f.data := by simp [renderField, hq']
    rw [hdata] at h
    have := needsQuote_false_clean f hq' c0 (by rw [h]; simp)
    push_neg at this
    exact this.2.2.1

/-- The text of a rendered field followed by a comma never starts with
the row terminator. -/
theorem renderField_comma_take2 (f : String) (r : List Char) :
    ((renderField f).data ++ ',' :: r).take 2 ≠ ['\r', '\n'] := by
  cases hfd : (renderField f).data with
  | nil =>
    simp only [List.nil_append, List.take]
    intro hc
    injection hc with h1 _
    exact absurd h1 (by decide)
  | cons c0 r0 =>
    have hc0 := renderField_head_ne_cr f c0 r0 hfd
    simp only [List.cons_append, List.take]
    intro hc
    injection hc with h1 _
    exact hc0 h1

/-- Parsing the comma-joined tail fields of a row. -/
theorem parseFieldsF_renderRowRest :
    ∀ (fs : List String) (fuel : ℕ) (t : List Char), fs ≠ [] → fs.length ≤ fuel →
      parseFieldsF fuel ((renderRowRest fs).data ++ t) = (fs.map String.data, t)
  | [], _, _, hne, _ => absurd rfl hne
  | [f], fuel, t, _, hfuel => by
    cases fuel with
    | zero => simp at hfuel
    | succ n =>
      rw [show renderRowRest [f] = renderField f ++ "\r\n" from rfl]
      rw [String.data_append]
      rw [show ("\r\n" : String).data = ['\r', '\n'] from rfl]
      rw [List.append_assoc]
      rw [parseFieldsF]
      rw [parseField_renderField f (['\r', '\n'] ++ t) (Or.inr (Or.inr (by simp [List.take])))]
      simp [List.take]
  | f :: g :: gs, fuel, t, _, hfuel => by
    cases fuel with
    | zero => simp at hfuel
    | succ n =>
      rw [show renderRowRest (f :: g :: gs) = renderField f ++ "," ++ renderRowRest (g :: gs)
          from rfl]
      rw [String.data_append, String.data_append]
      rw [show ("," : String).data = [','] from rfl]
      rw [List.append_assoc, List.append_assoc]
      rw [parseFieldsF]
      rw [parseField_renderField f ([','] ++ ((renderRowRest (g :: gs)).data ++ t))
            (Or.inr (Or.inl rfl))]
      have hrec := parseFieldsF_renderRowRest (g :: gs) n t (by simp)
        (by simp only [List.length_cons] at hfuel ⊢; omega)
      simp [hrec]


/-- Parsing one rendered row (with arbitrary following text). -/
theorem parseRowF_renderRow (fs : List String) (fuel : ℕ) (t : List Char)
    (hfuel : fs.length < fuel) :
    parseRowF fuel ((renderRow fs).data ++ t) = (fs.map String.data, t) := by
  match fs with
  | [] =>
    rw [show renderRow [] = "\r\n" from rfl,
        show ("\r\n" : String).data = ['\r', '\n'] from rfl]
    unfold parseRowF
    rw [if_pos (by simp [List.take])]
    simp
  | [f] =>
    cases fuel with
    | zero => simp at hfuel
    | succ n =>
      by_cases hf : f = ""
      · subst hf
        rw [show renderRow [""] = "\"\"" ++ "\r\n" from rfl]
        rw [String.data_append,
            show ("\"\"" : String).data = ['"', '"'] from rfl,
            show ("\r\n" : String).data = ['\r', '\n'] from rfl]
        unfold parseRowF
        rw [if_neg (by simp [List.take])]
        rw [parseFieldsF]
        have hpf : parseField ('"' :: '"' :: '\r' :: '\n' :: t) = ([], '\r' :: '\n' :: t) := by
          have h0 := parseQuotedF_esc (['\r', '\n'] ++ t) (by simp) [] []
          simp only [escChars, List.nil_append, List.cons_append] at h0
          rw [parseField.eq_def]
          simp [h0]
        simp only [List.cons_append, List.nil_append] at hpf ⊢
        rw [hpf]
        simp [List.take]
      · rw [show renderRow [f] = (if f = "" then "\"\"" else renderField f) ++ "\r\n" from rfl,
            if_neg hf]
        rw [String.data_append, show ("\r\n" : String).data = ['\r', '\n'] from rfl]
        obtain ⟨c0, r0, hfd⟩ : ∃ c0 r0, (renderField f).data = c0 :: r0 := by
          by_cases hq : needsQuote f = true
          · refine ⟨'"', escChars f.data ++ ['"'], ?_⟩
            simp [renderField, hq, String.data_append]
          · have hq' : needsQuote f = false := by
              cases hh : needsQuote f
              · rfl
              · exact absurd hh hq
            have hdata : (renderField f).data = f.data := by simp [renderField, hq']
            cases hfd : f.data with
            | nil => exact absurd hfd (string_data_ne_nil f hf)
            | cons c0 r0 => exact ⟨c0, r0, by rw [hdata, hfd]⟩
        have hc0 := renderField_head_ne_cr f c0 r0 hfd
        unfold parseRowF
        rw [List.append_assoc]
        rw [if_neg (by
          rw [hfd]
          simp only [List.cons_append, List.take]
          intro hc
          injection hc with h1 _
          exact hc0 h1)]
        rw [parseFieldsF]
        rw [parseField_renderField f (['\r', '\n'] ++ t) (Or.inr (Or.inr (by simp [List.take])))]
        simp [List.take]
  | f :: g :: gs =>
    cases fuel with
    | zero => simp at hfuel
    | succ n =>
      rw [show renderRow (f :: g :: gs) = renderField f ++ "," ++ renderRowRest (g :: gs)
          from rfl]
      rw [String.data_append, String.data_append,
          show ("," : String).data = [','] from rfl]
      rw [List.append_assoc, List.append_assoc]
      unfold parseRowF
      rw [if_neg (by
        have := renderField_comma_take2 f ((renderRowRest (g :: gs)).data ++ t)
        simpa using this)]
      rw [parseFieldsF]
      rw [parseField_renderField f ([','] ++ ((renderRowRest (g :: gs)).data ++ t))
            (Or.inr (Or.inl rfl))]
      have hrec := parseFieldsF_renderRowRest (g :: gs) n t (by simp)
        (by simp only [List.length_cons] at hfuel ⊢; omega)
      simp [hrec]


theorem renderRowRest_data_len : ∀ fs : List String, fs.length < (renderRowRest fs).data.length
  | [] => by
    have h : (renderRowRest []).data.length = 2 := rfl
    rw [h]
    decide
  | [f] => by
    rw [show renderRowRest [f] = renderField f ++ "\r\n" from rfl]
    rw [String.data_append, List.length_append]
    have h : ("\r\n" : String).data.length = 2 := rfl
    simp only [List.length_cons, List.length_nil]
    omega
  | f :: g :: gs => by
    rw [show renderRowRest (f :: g :: gs) = renderField f ++ "," ++ renderRowRest (g :: gs)
        from rfl]
    rw [String.data_append, String.data_append, List.length_append, List.length_append]
    have h := renderRowRest_data_len (g :: gs)
    simp only [List.length_cons] at h ⊢
    omega

theorem renderRow_data_len (fs : List String) : fs.length < (renderRow fs).data.length := by
  match fs with
  | [] =>
    have h : (renderRow []).data.length = 2 := rfl
    rw [h]
    decide
  | [f] =>
    by_cases hf : f = ""
    · subst hf
      have h : (renderRow [""]).data.length = 4 := rfl
      simp only [List.length_cons, List.length_nil]
      omega
    · rw [show renderRow [f] = (if f = "" then "\"\"" else renderField f) ++ "\r\n" from rfl,
          if_neg hf]
      rw [String.data_append, List.length_append]
      have h : ("\r\n" : String).data.length = 2 := rfl
      simp only [List.length_cons, List.length_nil]
      omega
  | f :: g :: gs =>
    rw [show renderRow (f :: g :: gs) = renderField f ++ "," ++ renderRowRest (g :: gs)
        from rfl]
    rw [String.data_append, String.data_append, List.length_append, List.length_append]
    have h := renderRowRest_data_len (g :: gs)
    simp only [List.length_cons] at h ⊢
    omega

theorem renderRows_data_len : ∀ rss : List (List String),
    rss.length ≤ (renderRows rss).data.length
  | [] => by simp [renderRows]
  | r :: rs => by
    rw [show renderRows (r :: rs) = renderRow r ++ renderRows rs from rfl]
    rw [String.data_append, List.length_append]
    have h1 := renderRow_data_len r
    have h2 := renderRows_data_len rs
    simp only [List.length_cons]
    omega

theorem parseRowsF_renderRows : ∀ (rss : List (List String)) (fuel : ℕ),
    rss.length < fuel →
    parseRowsF fuel (renderRows rss).data = rss.map (fun r => r.map String.data)
  | [], fuel, h => by
    cases fuel with
    | zero => simp at h
    | succ n => simp [renderRows, parseRowsF]
  | r :: rs, fuel, h => by
    cases fuel with
    | zero => simp at h
    | succ n =>
      rw [show renderRows (r :: rs) = renderRow r ++ renderRows rs from rfl, String.data_append]
      rw [parseRowsF]
      have hlen := renderRow_data_len r
      rw [if_neg (by
        intro hc
        have := congrArg List.length hc
        simp only [List.length_append, List.length_nil] at this
        omega)]
      have hrow := parseRowF_renderRow r
        (((renderRow r).data ++ (renderRows rs).data).length + 1) (renderRows rs).data
        (by simp only [List.length_append]; omega)
      simp only at hrow ⊢
      rw [hrow]
      have hrec := parseRowsF_renderRows rs n (by simp only [List.length_cons] at h; omega)
      rw [hrec]
      simp

theorem map_mk_map_data : ∀ l : List String, (l.map String.data).map String.mk = l
  | [] => rfl
  | s :: l => by simp [map_mk_map_data l]

theorem map_mk_map_data_rows : ∀ rows : List (List String),
    (rows.map (fun r => r.map String.data)).map (fun r => r.map String.mk) = rows
  | [] => rfl
  | r :: rs => by simp [map_mk_map_data r, map_mk_map_data_rows rs]

theorem zip_map_self (f : α → β) : ∀ l : List α, l.zip (l.map f) = l.map (fun k => (k, f k))
  | [] => rfl
  | a :: l => by simp [zip_map_self f l]

theorem parseCSV_export (es : List Record) (hne : es ≠ []) :
    parseCSV (export_to_csv es)
      = fieldnamesOf es :: es.map (fun e => (fieldnamesOf es).map (cellOf e)) := by
  have hexp : export_to_csv es =
      renderRows (fieldnamesOf es :: es.map (fun e => (fieldnamesOf es).map (cellOf e))) := by
    unfold export_to_csv
    rw [if_neg hne]
  unfold parseCSV
  rw [hexp]
  have hlen : (renderRows (fieldnamesOf es ::
      es.map (fun e => (fieldnamesOf es).map (cellOf e)))).length
      = (renderRows (fieldnamesOf es ::
        es.map (fun e => (fieldnamesOf es).map (cellOf e)))).data.length := rfl
  rw [parseRowsF_renderRows _ _ (by
    rw [hlen]
    have := renderRows_data_len (fieldnamesOf es ::
      es.map (fun e => (fieldnamesOf es).map (cellOf e)))
    omega)]
  rw [map_mk_map_data_rows]


theorem map_zip_rows (F : List String) : ∀ l : List Record,
    l.map (fun e => F.zip (F.map (cellOf e)))
      = l.map (fun e => F.map (fun k => (k, cellOf e k)))
  | [] => rfl
  | e :: l => by simp [zip_map_self (cellOf e) F, map_zip_rows F l]

/-! ## Claims -/

unseal Rat.add Rat.mul Rat.inv Rat.sub in
/-- C2 (counterexample): the claim "`total_amount` equals the sum of
`breakdown[*].amount`" fails on the single record `{"amount": 1/1000}`:
`total_amount` is the rounded value `0.00` while the breakdown sum is
the unrounded `0.001`. -/
theorem claim_C2_counterexample :
    okLookup (analyze_expenses [[("amount", Value.num (1 / 1000))]] "category" "MAD")
        "total_amount" = some (.num 0) ∧
    sumB (okBreakdown (analyze_expenses [[("amount", Value.num (1 / 1000))]] "category" "MAD"))
        = 1 / 1000 ∧
    (0 : ℚ) ≠ 1 / 1000 := by
  refine ⟨by decide, by decide, by norm_num⟩

/-- C2 (amended): for every non-empty record list and any grouping field,
`total_amount` equals the sum of `breakdown[*].amount` **rounded to two
decimals** (the two agree exactly whenever that sum lies on the
two-decimal grid). -/
theorem claim_C2_total_eq_rounded_breakdown_sum (es : List Record) (gb c : String)
    (out : List (String × OutVal)) (hne : es ≠ [])
    (h : analyze_expenses es gb c = .ok out) :
    out.lookup "total_amount" = some (.num (round2 (sumB (breakdownOf out)))) := by
  obtain ⟨hall, trend, htr, hout⟩ := analyze_ok_char es gb c out hne h
  subst hout
  have h1 : breakdownOf (analyzeResult es gb c trend) = (finalState gb es).breakdown := rfl
  have h2 : (analyzeResult es gb c trend).lookup "total_amount"
      = some (.num (round2 (finalState gb es).total)) := rfl
  rw [h1, h2, finalState_sumB, finalState_total]

unseal Rat.add Rat.mul Rat.inv Rat.sub in
/-- Witness for C2 (amended) at `[{"amount": 1}]`. -/
theorem claim_C2_total_eq_rounded_breakdown_sum_witness :
    ([[("amount", Value.num 1)]] ≠ ([] : List Record)) ∧
    analyze_expenses [[("amount", Value.num 1)]] "category" "MAD" =
      .ok [("success", .bool true), ("total_amount", .num 1), ("currency", .str "MAD"),
           ("count", .nat 1),
           ("breakdown", .breakdown [(.str "other", 1, 1)]),
           ("insights", .strs
              ["Highest spending: other (1.00 MAD)", "Most used payment: unknown (1.00 MAD)",
               "Average expense: 1.00 MAD"]),
           ("payment_summary", .amounts [(.str "unknown", 1)]),
           ("daily_totals", .amounts [(.str "unknown", 1)])] ∧
    List.lookup "total_amount"
        [("success", OutVal.bool true), ("total_amount", OutVal.num 1),
         ("currency", OutVal.str "MAD"), ("count", .nat 1),
         ("breakdown", .breakdown [(.str "other", 1, 1)]),
         ("insights", .strs
            ["Highest spending: other (1.00 MAD)", "Most used payment: unknown (1.00 MAD)",
             "Average expense: 1.00 MAD"]),
         ("payment_summary", .amounts [(.str "unknown", 1)]),
         ("daily_totals", .amounts [(.str "unknown", 1)])]
      = some (.num (round2 (sumB (breakdownOf
          [("success", OutVal.bool true), ("total_amount", OutVal.num 1),
           ("currency", OutVal.str "MAD"), ("count", .nat 1),
           ("breakdown", .breakdown [(.str "other", 1, 1)]),
           ("insights", .strs
              ["Highest spending: other (1.00 MAD)", "Most used payment: unknown (1.00 MAD)",
               "Average expense: 1.00 MAD"]),
           ("payment_summary", .amounts [(.str "unknown", 1)]),
           ("daily_totals", .amounts [(.str "unknown", 1)])])))) :=
  ⟨by simp, by rfl,
   claim_C2_total_eq_rounded_breakdown_sum [[("amount", Value.num 1)]] "category" "MAD"
     _ (by simp) (by rfl)⟩

/-- C3: for every non-empty record list, `total_amount` equals the sum
of the records' amounts (missing/null amount contributing `0`), rounded
to two decimals.  Stated for inputs on which the analysis returns
(i.e. does not raise a `TypeError`). -/
theorem claim_C3_total_amount (es : List Record) (gb c : String)
    (out : List (String × OutVal)) (hne : es ≠ [])
    (h : analyze_expenses es gb c = .ok out) :
    out.lookup "total_amount" = some (.num (round2 ((es.map amtOf).sum))) := by
  obtain ⟨hall, trend, htr, hout⟩ := analyze_ok_char es gb c out hne h
  subst hout
  have h2 : (analyzeResult es gb c trend).lookup "total_amount"
      = some (.num (round2 (finalState gb es).total)) := rfl
  rw [h2, finalState_total]

unseal Rat.add Rat.mul Rat.inv Rat.sub in
/-- Witness for C3 at `[{"amount": 2}, {"amount": null}]`. -/
theorem claim_C3_total_amount_witness :
    ([[("amount", Value.num 2)], [("amount", Value.null)]] ≠ ([] : List Record)) ∧
    okLookup
        (analyze_expenses [[("amount", Value.num 2)], [("amount", Value.null)]]
          "category" "MAD") "total_amount"
      = some (.num (round2
          (([[("amount", Value.num 2)], [("amount", Value.null)]].map amtOf).sum))) := by
  refine ⟨by simp, ?_⟩
  have h :
      analyze_expenses [[("amount", Value.num 2)], [("amount", Value.null)]]
        "category" "MAD" =
      .ok [("success", .bool true), ("total_amount", .num 2), ("currency", .str "MAD"),
           ("count", .nat 2),
           ("breakdown", .breakdown [(.str "other", 2, 2)]),
           ("insights", .strs
              ["Highest spending: other (2.00 MAD)", "Most used payment: unknown (2.00 MAD)",
               "Average expense: 1.00 MAD"]),
           ("payment_summary", .amounts [(.str "unknown", 2)]),
           ("daily_totals", .amounts [(.str "unknown", 2)])] := by rfl
  rw [h]
  show List.lookup "total_amount" _ = _
  exact claim_C3_total_amount [[("amount", Value.num 2)], [("amount", Value.null)]]
    "category" "MAD" _ (by simp) h

/-- C4 (counterexample): the claim "analyze never raises for any input
list" fails: a record whose `amount` is the truthy non-numeric string
`"x"` makes `total += amount` raise a `TypeError`. -/
theorem claim_C4_counterexample :
    analyze_expenses [[("amount", Value.str "x")]] "category" "MAD" =
      .error "TypeError: unsupported operand type for +" := by
  rfl

/-- C4 (amended): `analyze_expenses` returns a result (never raises)
provided every record's coerced amount is numeric (missing, null and
falsy values are coerced to `0`; the grouping field, payment method and
date are coerced to `"other"`/`"unknown"` when missing or falsy) and all
truthy dates are mutually comparable (all strings, or all numbers). -/
theorem claim_C4_no_error (es : List Record) (gb c : String)
    (hA : es.all amountOk = true)
    (hd : (datesOf es).all Value.isStr = true ∨ (datesOf es).all Value.isNum = true) :
    okB (analyze_expenses es gb c) = true := by
  by_cases hne : es = []
  · subst hne; rfl
  · obtain ⟨tr, htr⟩ := trendInsights_kind_ok es (finalState gb es).daily hd
    rw [analyze_ne_eq es gb c hne hA, htr]
    rfl

/-- Witness for C4 (amended) at two records with null/missing amounts
and string dates. -/
theorem claim_C4_no_error_witness :
    (([[("amount", Value.null), ("date", Value.str "2024-01-02")],
       [("date", Value.str "2024-01-01")]] : List Record).all amountOk = true) ∧
    ((datesOf [[("amount", Value.null), ("date", Value.str "2024-01-02")],
       [("date", Value.str "2024-01-01")]]).all Value.isStr = true) ∧
    okB (analyze_expenses
      [[("amount", Value.null), ("date", Value.str "2024-01-02")],
       [("date", Value.str "2024-01-01")]] "category" "MAD") = true := by
  refine ⟨by decide, by decide, ?_⟩
  exact claim_C4_no_error _ "category" "MAD" (by decide) (Or.inl (by decide))

/-- C5 (counterexample): on the empty list the result dict of
`analyze_expenses` has only the six keys `success, total_amount,
currency, count, breakdown, insights`; the claimed full shape fails
because `payment_summary` and `daily_totals` are absent. -/
theorem claim_C5_counterexample :
    analyze_expenses [] "category" "MAD" =
      .ok [("success", .bool true), ("total_amount", .num 0), ("currency", .str "MAD"),
           ("count", .nat 0), ("breakdown", .breakdown []),
           ("insights", .strs ["No expenses to analyze"])] ∧
    okLookup (analyze_expenses [] "category" "MAD") "payment_summary" = none ∧
    okLookup (analyze_expenses [] "category" "MAD") "daily_totals" = none :=
  ⟨rfl, rfl, rfl⟩

/-- C5 (amended): `analyze([])` returns `total_amount == 0`,
`count == 0`, an empty breakdown and exactly one insight string, with
result shape `{success, total_amount, currency, count, breakdown,
insights}` (no `payment_summary` or `daily_totals` keys in the
empty case). -/
theorem claim_C5_empty_analysis (gb c : String) :
    analyze_expenses [] gb c =
      .ok [("success", .bool true), ("total_amount", .num 0), ("currency", .str c),
           ("count", .nat 0), ("breakdown", .breakdown []),
           ("insights", .strs ["No expenses to analyze"])] :=
  rfl

/-- C6: for every non-empty record list (on which the analysis
returns), the insights begin, in this fixed order, with the
highest-spending group (first-seen maximum of the breakdown amounts),
the most-used payment method (same rule over the payment summary), and
the average expense `total/count`, each with the exact format string of
the source. -/
theorem claim_C6_insights_order (es : List Record) (gb c : String)
    (out : List (String × OutVal)) (hne : es ≠ [])
    (h : analyze_expenses es gb c = .ok out) :
    ∃ topB topP tail,
      firstMaxBy (fun x : Value × ℚ × ℕ => x.2.1) (breakdownOf out) = some topB ∧
      firstMaxBy (fun x : Value × ℚ => x.2) (paymentsOf out) = some topP ∧
      insightsOf out =
        ["Highest spending: " ++ topB.1.pyStr ++ " (" ++ fmt2 topB.2.1 ++ " " ++ c ++ ")",
         "Most used payment: " ++ topP.1.pyStr ++ " (" ++ fmt2 topP.2 ++ " " ++ c ++ ")",
         "Average expense: " ++ fmt2 ((es.map amtOf).sum / (es.length : ℚ)) ++ " " ++ c]
        ++ tail := by
  obtain ⟨hall, trend, htr, hout⟩ := analyze_ok_char es gb c out hne h
  subst hout
  obtain ⟨tb, htb⟩ : ∃ t, pyMax (fun x : Value × ℚ × ℕ => x.2.1)
      (finalState gb es).breakdown = some t := by
    cases hbne : (finalState gb es).breakdown with
    | nil => exact absurd hbne (finalState_breakdown_ne gb es hne)
    | cons a l => exact ⟨_, rfl⟩
  obtain ⟨tp, htp⟩ : ∃ t, pyMax (fun x : Value × ℚ => x.2)
      (finalState gb es).payments = some t := by
    cases hpne : (finalState gb es).payments with
    | nil => exact absurd hpne (finalState_payments_ne gb es hne)
    | cons a l => exact ⟨_, rfl⟩
  refine ⟨tb, tp, trend, ?_, ?_, ?_⟩
  · rw [show breakdownOf (analyzeResult es gb c trend) = (finalState gb es).breakdown from rfl,
        ← pyMax_eq_firstMaxBy]
    exact htb
  · rw [show paymentsOf (analyzeResult es gb c trend) = (finalState gb es).payments from rfl,
        ← pyMax_eq_firstMaxBy]
    exact htp
  · have hi : insightsOf (analyzeResult es gb c trend) =
        (match pyMax (fun x : Value × ℚ × ℕ => x.2.1) (finalState gb es).breakdown with
          | some top =>
              ["Highest spending: " ++ top.1.pyStr ++ " (" ++ fmt2 top.2.1 ++ " " ++ c ++ ")"]
          | none => []) ++
        (match pyMax (fun x : Value × ℚ => x.2) (finalState gb es).payments with
          | some top =>
              ["Most used payment: " ++ top.1.pyStr ++ " (" ++ fmt2 top.2 ++ " " ++ c ++ ")"]
          | none => []) ++
        ["Average expense: " ++
          fmt2 (if es = [] then 0 else (finalState gb es).total / (es.length : ℚ)) ++
          " " ++ c] ++ trend := rfl
    rw [hi, htb, htp, if_neg hne, finalState_total]
    simp

theorem up_mem_specTrend (es : List Record) :
    ("📈 Spending trending upward" ∈ specTrend es ↔
      2 ≤ (sortedDates es).length ∧ firstHalfSum es < secondHalfSum es) := by
  unfold specTrend
  split_ifs with h1 h2 h3
  · simp [h1, h2]
  · have hnf : ¬ firstHalfSum es < secondHalfSum es := lt_asymm h3
    simp [hnf]
  · simp [h2]
  · simp [h1]

theorem down_mem_specTrend (es : List Record) :
    ("📉 Spending trending downward" ∈ specTrend es ↔
      2 ≤ (sortedDates es).length ∧ secondHalfSum es < firstHalfSum es) := by
  unfold specTrend
  split_ifs with h1 h2 h3
  · have hns : ¬ secondHalfSum es < firstHalfSum es := lt_asymm h2
    simp [hns]
  · simp [h1, h3]
  · simp [h2, h3]
  · simp [h1]

/-- C7: a trend insight appears in the analyze output iff at least two
distinct truthy dates are present and the two date-ordered halves' sums
differ (split at `len(dates)//2`); upward iff the second half's sum is
larger, downward iff smaller.  The insights after the first three are
exactly the spec-side trend block. -/
theorem claim_C7_trend_insight (es : List Record) (gb c : String)
    (out : List (String × OutVal))
    (h : analyze_expenses es gb c = .ok out) :
    (insightsOf out).drop 3 = specTrend es ∧
    ("📈 Spending trending upward" ∈ insightsOf out ↔
        2 ≤ (sortedDates es).length ∧ firstHalfSum es < secondHalfSum es) ∧
    ("📉 Spending trending downward" ∈ insightsOf out ↔
        2 ≤ (sortedDates es).length ∧ secondHalfSum es < firstHalfSum es) := by
  by_cases hne : es = []
  · subst hne
    have hout : out = [("success", .bool true), ("total_amount", .num 0),
        ("currency", .str c), ("count", .nat 0), ("breakdown", .breakdown []),
        ("insights", .strs ["No expenses to analyze"])] := (Except.ok.inj h).symm
    subst hout
    have h2 : (sortedDates ([] : List Record)).length = 0 := rfl
    have hio : insightsOf [("success", OutVal.bool true), ("total_amount", OutVal.num 0),
        ("currency", OutVal.str c), ("count", OutVal.nat 0),
        ("breakdown", OutVal.breakdown []),
        ("insights", OutVal.strs ["No expenses to analyze"])]
        = ["No expenses to analyze"] := rfl
    rw [hio]
    refine ⟨rfl, ?_, ?_⟩ <;>
      · constructor
        · intro hm
          simp only [List.mem_singleton] at hm
          exact absurd hm (by decide)
        · intro hc
          omega
  · obtain ⟨hall, trend, htr, hout⟩ := analyze_ok_char es gb c out hne h
    subst hout
    have hts := trend_ok_eq gb es trend htr
    subst hts
    obtain ⟨tb, htb⟩ : ∃ t, pyMax (fun x : Value × ℚ × ℕ => x.2.1)
        (finalState gb es).breakdown = some t := by
      cases hbne : (finalState gb es).breakdown with
      | nil => exact absurd hbne (finalState_breakdown_ne gb es hne)
      | cons a l => exact ⟨_, rfl⟩
    obtain ⟨tp, htp⟩ : ∃ t, pyMax (fun x : Value × ℚ => x.2)
        (finalState gb es).payments = some t := by
      cases hpne : (finalState gb es).payments with
      | nil => exact absurd hpne (finalState_payments_ne gb es hne)
      | cons a l => exact ⟨_, rfl⟩
    have hi : insightsOf (analyzeResult es gb c (specTrend es)) =
        (match pyMax (fun x : Value × ℚ × ℕ => x.2.1) (finalState gb es).breakdown with
          | some top =>
              ["Highest spending: " ++ top.1.pyStr ++ " (" ++ fmt2 top.2.1 ++ " " ++ c ++ ")"]
          | none => []) ++
        (match pyMax (fun x : Value × ℚ => x.2) (finalState gb es).payments with
          | some top =>
              ["Most used payment: " ++ top.1.pyStr ++ " (" ++ fmt2 top.2 ++ " " ++ c ++ ")"]
          | none => []) ++
        ["Average expense: " ++
          fmt2 (if es = [] then 0 else (finalState gb es).total / (es.length : ℚ)) ++
          " " ++ c] ++ specTrend es := rfl
    have hlist : insightsOf (analyzeResult es gb c (specTrend es)) =
        ("Highest spending: " ++ tb.1.pyStr ++ " (" ++ fmt2 tb.2.1 ++ " " ++ c ++ ")") ::
        ("Most used payment: " ++ tp.1.pyStr ++ " (" ++ fmt2 tp.2 ++ " " ++ c ++ ")") ::
        ("Average expense: " ++
          fmt2 (if es = [] then 0 else (finalState gb es).total / (es.length : ℚ)) ++
          " " ++ c) :: specTrend es := by
      rw [hi, htb, htp]
      simp
    rw [hlist]
    have hH : ("Highest spending: " ++ tb.1.pyStr ++ " (" ++ fmt2 tb.2.1 ++ " " ++ c ++ ")").data.head?
        = some 'H' := by
      repeat
        first
          | rfl
          | apply head?_append_str
    have hP : ("Most used payment: " ++ tp.1.pyStr ++ " (" ++ fmt2 tp.2 ++ " " ++ c ++ ")").data.head?
        = some 'M' := by
      repeat
        first
          | rfl
          | apply head?_append_str
    have hA : ("Average expense: " ++
          fmt2 (if es = [] then 0 else (finalState gb es).total / (es.length : ℚ)) ++
          " " ++ c).data.head? = some 'A' := by
      repeat
        first
          | rfl
          | apply head?_append_str
    have hneH : "📈 Spending trending upward"
        ≠ "Highest spending: " ++ tb.1.pyStr ++ " (" ++ fmt2 tb.2.1 ++ " " ++ c ++ ")" :=
      str_ne_of_head "📈 Spending trending upward" _ '📈' 'H' rfl hH (by decide)
    have hneP : "📈 Spending trending upward"
        ≠ "Most used payment: " ++ tp.1.pyStr ++ " (" ++ fmt2 tp.2 ++ " " ++ c ++ ")" :=
      str_ne_of_head "📈 Spending trending upward" _ '📈' 'M' rfl hP (by decide)
    have hneA : "📈 Spending trending upward"
        ≠ "Average expense: " ++
            fmt2 (if es = [] then 0 else (finalState gb es).total / (es.length : ℚ)) ++
            " " ++ c :=
      str_ne_of_head "📈 Spending trending upward" _ '📈' 'A' rfl hA (by decide)
    have hneH' : "📉 Spending trending downward"
        ≠ "Highest spending: " ++ tb.1.pyStr ++ " (" ++ fmt2 tb.2.1 ++ " " ++ c ++ ")" :=
      str_ne_of_head "📉 Spending trending downward" _ '📉' 'H' rfl hH (by decide)
    have hneP' : "📉 Spending trending downward"
        ≠ "Most used payment: " ++ tp.1.pyStr ++ " (" ++ fmt2 tp.2 ++ " " ++ c ++ ")" :=
      str_ne_of_head "📉 Spending trending downward" _ '📉' 'M' rfl hP (by decide)
    have hneA' : "📉 Spending trending downward"
        ≠ "Average expense: " ++
            fmt2 (if es = [] then 0 else (finalState gb es).total / (es.length : ℚ)) ++
            " " ++ c :=
      str_ne_of_head "📉 Spending trending downward" _ '📉' 'A' rfl hA (by decide)
    refine ⟨rfl, ?_, ?_⟩
    · simp only [List.mem_cons, hneH, hneP, hneA, false_or]
      simp [hneH, hneP, hneA, up_mem_specTrend es]
    · simp only [List.mem_cons]
      simp [hneH', hneP', hneA', down_mem_specTrend es]

unseal Rat.add Rat.mul Rat.inv Rat.sub in
/-- Witness for C6 at `[{"amount": 5}, {"amount": 3}]`. -/
theorem claim_C6_insights_order_witness :
    (([[("amount", Value.num 5)], [("amount", Value.num 3)]] : List Record) ≠ []) ∧
    analyze_expenses [[("amount", Value.num 5)], [("amount", Value.num 3)]] "category" "MAD" =
      .ok [("success", .bool true), ("total_amount", .num 8), ("currency", .str "MAD"),
           ("count", .nat 2),
           ("breakdown", .breakdown [(.str "other", 8, 2)]),
           ("insights", .strs
              ["Highest spending: other (8.00 MAD)", "Most used payment: unknown (8.00 MAD)",
               "Average expense: 4.00 MAD"]),
           ("payment_summary", .amounts [(.str "unknown", 8)]),
           ("daily_totals", .amounts [(.str "unknown", 8)])] ∧
    (∃ topB topP tail,
      firstMaxBy (fun x : Value × ℚ × ℕ => x.2.1)
          (breakdownOf [("success", OutVal.bool true), ("total_amount", OutVal.num 8),
            ("currency", OutVal.str "MAD"), ("count", .nat 2),
            ("breakdown", .breakdown [(.str "other", 8, 2)]),
            ("insights", .strs
              ["Highest spending: other (8.00 MAD)", "Most used payment: unknown (8.00 MAD)",
               "Average expense: 4.00 MAD"]),
            ("payment_summary", .amounts [(.str "unknown", 8)]),
            ("daily_totals", .amounts [(.str "unknown", 8)])]) = some topB ∧
      firstMaxBy (fun x : Value × ℚ => x.2)
          (paymentsOf [("success", OutVal.bool true), ("total_amount", OutVal.num 8),
            ("currency", OutVal.str "MAD"), ("count", .nat 2),
            ("breakdown", .breakdown [(.str "other", 8, 2)]),
            ("insights", .strs
              ["Highest spending: other (8.00 MAD)", "Most used payment: unknown (8.00 MAD)",
               "Average expense: 4.00 MAD"]),
            ("payment_summary", .amounts [(.str "unknown", 8)]),
            ("daily_totals", .amounts [(.str "unknown", 8)])]) = some topP ∧
      insightsOf [("success", OutVal.bool true), ("total_amount", OutVal.num 8),
            ("currency", OutVal.str "MAD"), ("count", .nat 2),
            ("breakdown", .breakdown [(.str "other", 8, 2)]),
            ("insights", .strs
              ["Highest spending: other (8.00 MAD)", "Most used payment: unknown (8.00 MAD)",
               "Average expense: 4.00 MAD"]),
            ("payment_summary", .amounts [(.str "unknown", 8)]),
            ("daily_totals", .amounts [(.str "unknown", 8)])] =
        ["Highest spending: " ++ topB.1.pyStr ++ " (" ++ fmt2 topB.2.1 ++ " " ++ "MAD" ++ ")",
         "Most used payment: " ++ topP.1.pyStr ++ " (" ++ fmt2 topP.2 ++ " " ++ "MAD" ++ ")",
         "Average expense: " ++
           fmt2 ((([[("amount", Value.num 5)], [("amount", Value.num 3)]] : List Record).map
             amtOf).sum / (([[("amount", Value.num 5)], [("amount", Value.num 3)]] : List Record).length : ℚ)) ++
           " " ++ "MAD"] ++ tail) :=
  ⟨by simp, by rfl,
   claim_C6_insights_order [[("amount", Value.num 5)], [("amount", Value.num 3)]]
     "category" "MAD" _ (by simp) (by rfl)⟩

unseal Rat.add Rat.mul Rat.inv Rat.sub in
/-- Witness for C7 at two records with dates `"b"` and `"a"` whose
second (date-ordered) half total is smaller: the downward insight. -/
theorem claim_C7_trend_insight_witness :
    analyze_expenses
        [[("amount", Value.num 1), ("date", Value.str "b")],
         [("amount", Value.num 4), ("date", Value.str "a")]] "category" "MAD" =
      .ok [("success", .bool true), ("total_amount", .num 5), ("currency", .str "MAD"),
           ("count", .nat 2),
           ("breakdown", .breakdown [(.str "other", 5, 2)]),
           ("insights", .strs
              ["Highest spending: other (5.00 MAD)", "Most used payment: unknown (5.00 MAD)",
               "Average expense: 2.50 MAD", "📉 Spending trending downward"]),
           ("payment_summary", .amounts [(.str "unknown", 5)]),
           ("daily_totals", .amounts [(.str "b", 1), (.str "a", 4)])] ∧
    ((insightsOf [("success", OutVal.bool true), ("total_amount", OutVal.num 5),
        ("currency", OutVal.str "MAD"), ("count", .nat 2),
        ("breakdown", .breakdown [(.str "other", 5, 2)]),
        ("insights", .strs
          ["Highest spending: other (5.00 MAD)", "Most used payment: unknown (5.00 MAD)",
           "Average expense: 2.50 MAD", "📉 Spending trending downward"]),
        ("payment_summary", .amounts [(.str "unknown", 5)]),
        ("daily_totals", .amounts [(.str "b", 1), (.str "a", 4)])]).drop 3 =
      specTrend [[("amount", Value.num 1), ("date", Value.str "b")],
                 [("amount", Value.num 4), ("date", Value.str "a")]] ∧
    ("📈 Spending trending upward" ∈ insightsOf [("success", OutVal.bool true),
        ("total_amount", OutVal.num 5),
        ("currency", OutVal.str "MAD"), ("count", .nat 2),
        ("breakdown", .breakdown [(.str "other", 5, 2)]),
        ("insights", .strs
          ["Highest spending: other (5.00 MAD)", "Most used payment: unknown (5.00 MAD)",
           "Average expense: 2.50 MAD", "📉 Spending trending downward"]),
        ("payment_summary", .amounts [(.str "unknown", 5)]),
        ("daily_totals", .amounts [(.str "b", 1), (.str "a", 4)])] ↔
        2 ≤ (sortedDates [[("amount", Value.num 1), ("date", Value.str "b")],
                 [("amount", Value.num 4), ("date", Value.str "a")]]).length ∧
          firstHalfSum [[("amount", Value.num 1), ("date", Value.str "b")],
                 [("amount", Value.num 4), ("date", Value.str "a")]] <
          secondHalfSum [[("amount", Value.num 1), ("date", Value.str "b")],
                 [("amount", Value.num 4), ("date", Value.str "a")]]) ∧
    ("📉 Spending trending downward" ∈ insightsOf [("success", OutVal.bool true),
        ("total_amount", OutVal.num 5),
        ("currency", OutVal.str "MAD"), ("count", .nat 2),
        ("breakdown", .breakdown [(.str "other", 5, 2)]),
        ("insights", .strs
          ["Highest spending: other (5.00 MAD)", "Most used payment: unknown (5.00 MAD)",
           "Average expense: 2.50 MAD", "📉 Spending trending downward"]),
        ("payment_summary", .amounts [(.str "unknown", 5)]),
        ("daily_totals", .amounts [(.str "b", 1), (.str "a", 4)])] ↔
        2 ≤ (sortedDates [[("amount", Value.num 1), ("date", Value.str "b")],
                 [("amount", Value.num 4), ("date", Value.str "a")]]).length ∧
          secondHalfSum [[("amount", Value.num 1), ("date", Value.str "b")],
                 [("amount", Value.num 4), ("date", Value.str "a")]] <
          firstHalfSum [[("amount", Value.num 1), ("date", Value.str "b")],
                 [("amount", Value.num 4), ("date", Value.str "a")]])) :=
  ⟨by rfl,
   claim_C7_trend_insight
     [[("amount", Value.num 1), ("date", Value.str "b")],
      [("amount", Value.num 4), ("date", Value.str "a")]] "category" "MAD" _ (by rfl)⟩

/-- C1: for at least 3 records with numeric (or coercible) amounts not
all identical, `detect_anomalies` returns, in input order, exactly the
records with `|amount - mean| / std_dev > threshold` (population mean
and standard deviation, divisor N, missing amount treated as 0), each
carrying `z_score` (the ratio rounded to 2 decimals) and `deviation`
(`"high"` iff the amount is above the mean). -/
theorem claim_C1_detect_exact (es : List Record) (t : ℚ)
    (hlen : 3 ≤ es.length) (hA : es.all amountOk = true)
    (hneq : ¬ ∀ x ∈ es.map amtOf, ∀ y ∈ es.map amtOf, x = y) :
    detect_anomalies es t = .ok (specAnomalies es t) := by
  have hne : es ≠ [] := by intro h; subst h; simp at hlen
  exact detect_main_eq es t (by omega) hA
    (fun h0 => hneq ((variance_zero_iff es hne).mp h0))

/-- Witness for C1 at amounts `[1, 1, 2]`, threshold 2. -/
theorem claim_C1_detect_exact_witness :
    (3 ≤ ([[("amount", Value.num 1)], [("amount", Value.num 1)],
        [("amount", Value.num 2)]] : List Record).length) ∧
    (([[("amount", Value.num 1)], [("amount", Value.num 1)],
        [("amount", Value.num 2)]] : List Record).all amountOk = true) ∧
    (¬ ∀ x ∈ ([[("amount", Value.num 1)], [("amount", Value.num 1)],
          [("amount", Value.num 2)]] : List Record).map amtOf,
        ∀ y ∈ ([[("amount", Value.num 1)], [("amount", Value.num 1)],
          [("amount", Value.num 2)]] : List Record).map amtOf, x = y) ∧
    detect_anomalies [[("amount", Value.num 1)], [("amount", Value.num 1)],
        [("amount", Value.num 2)]] 2 =
      .ok (specAnomalies [[("amount", Value.num 1)], [("amount", Value.num 1)],
        [("amount", Value.num 2)]] 2) :=
  ⟨by decide, by decide, by decide,
   claim_C1_detect_exact _ 2 (by decide) (by decide) (by decide)⟩

/-- C8: `detect_anomalies` returns the empty list, without raising,
whenever fewer than 3 records are supplied, and also whenever the
(coercible) amounts are all identical (zero standard deviation). -/
theorem claim_C8_guard_cases (es : List Record) (t : ℚ) :
    (es.length < 3 → detect_anomalies es t = .ok []) ∧
    (es.all amountOk = true →
      (∀ x ∈ es.map amtOf, ∀ y ∈ es.map amtOf, x = y) →
      detect_anomalies es t = .ok []) := by
  refine ⟨fun h => detect_small es t h, fun hA hEq => ?_⟩
  by_cases hlen : es.length < 3
  · exact detect_small es t hlen
  · have hne : es ≠ [] := by intro h; subst h; simp at hlen
    exact detect_zero_var es t hlen hA ((variance_zero_iff es hne).mpr hEq)

/-- Witness for C8: one record, and three identical amounts. -/
theorem claim_C8_guard_cases_witness :
    detect_anomalies ([[("amount", Value.num 7)]] : List Record) 2 = .ok [] ∧
    detect_anomalies ([[("amount", Value.num 7)], [("amount", Value.num 7)],
      [("amount", Value.num 7)]] : List Record) 2 = .ok [] :=
  ⟨(claim_C8_guard_cases _ 2).1 (by decide),
   (claim_C8_guard_cases _ 2).2 (by decide) (by decide)⟩

/-- C10: `detect_anomalies` is a pure function of its input (the input
records are immutable values in this embedding and are never altered);
every returned anomaly is a fresh mapping equal to the corresponding
input record with `z_score` and `deviation` attached, overwriting those
two keys when already present and leaving every other key's value
exactly as in the input record. -/
theorem claim_C10_fresh_anomalies (es : List Record) (t : ℚ) (res : List Record)
    (h : detect_anomalies es t = .ok res) :
    ∀ r ∈ res, ∃ e, e ∈ es ∧
      r = augmentAnomaly es e ∧
      (∀ k, k ≠ "z_score" → k ≠ "deviation" → r.lookup k = e.lookup k) ∧
      r.lookup "z_score" = some (.num (round2R (specZ es e))) ∧
      r.lookup "deviation" = some (.str (if amtOf e > specMean es then "high" else "low")) := by
  by_cases hlen : es.length < 3
  · rw [detect_small es t hlen] at h
    have hres : res = [] := (Except.ok.inj h).symm
    subst hres
    intro r hr
    exact absurd hr (List.not_mem_nil r)
  · cases hall : es.all amountOk with
    | false =>
      exfalso
      unfold detect_anomalies at h
      rw [if_neg hlen, coerceAmounts_eq] at h
      rw [if_neg (by rw [hall]; exact Bool.false_ne_true)] at h
      exact Except.noConfusion h
    | true =>
      by_cases hvar : specVariance es = 0
      · rw [detect_zero_var es t hlen hall hvar] at h
        have hres : res = [] := (Except.ok.inj h).symm
        subst hres
        intro r hr
        exact absurd hr (List.not_mem_nil r)
      · rw [detect_main_eq es t hlen hall hvar] at h
        have hres : res = specAnomalies es t := (Except.ok.inj h).symm
        subst hres
        intro r hr
        unfold specAnomalies at hr
        rw [List.mem_map] at hr
        obtain ⟨e, he, rfl⟩ := hr
        rw [List.mem_filter] at he
        refine ⟨e, he.1, rfl, ?_, ?_, ?_⟩
        · intro k hkz hkd
          unfold augmentAnomaly
          rw [lookup_set_ne _ _ _ _ hkd, lookup_set_ne _ _ _ _ hkz]
        · unfold augmentAnomaly
          rw [lookup_set_ne _ _ _ _ (by decide), lookup_set_self]
        · unfold augmentAnomaly
          rw [lookup_set_self]

/-- Witness for C10 at amounts `[1, 1, 2]`, threshold 2. -/
theorem claim_C10_fresh_anomalies_witness :
    detect_anomalies [[("amount", Value.num 1)], [("amount", Value.num 1)],
        [("amount", Value.num 2)]] 2 =
      .ok (specAnomalies [[("amount", Value.num 1)], [("amount", Value.num 1)],
        [("amount", Value.num 2)]] 2) ∧
    ∀ r ∈ specAnomalies [[("amount", Value.num 1)], [("amount", Value.num 1)],
        [("amount", Value.num 2)]] 2, ∃ e,
      e ∈ ([[("amount", Value.num 1)], [("amount", Value.num 1)],
        [("amount", Value.num 2)]] : List Record) ∧
      r = augmentAnomaly [[("amount", Value.num 1)], [("amount", Value.num 1)],
        [("amount", Value.num 2)]] e ∧
      (∀ k, k ≠ "z_score" → k ≠ "deviation" →
        r.lookup k = e.lookup k) ∧
      r.lookup "z_score" = some (.num (round2R (specZ [[("amount", Value.num 1)],
        [("amount", Value.num 1)], [("amount", Value.num 2)]] e))) ∧
      r.lookup "deviation" = some (.str (if amtOf e > specMean [[("amount", Value.num 1)],
        [("amount", Value.num 1)], [("amount", Value.num 2)]] then "high" else "low")) :=
  have h : detect_anomalies [[("amount", Value.num 1)], [("amount", Value.num 1)],
      [("amount", Value.num 2)]] 2 =
      .ok (specAnomalies [[("amount", Value.num 1)], [("amount", Value.num 1)],
        [("amount", Value.num 2)]] 2) :=
    detect_main_eq _ 2 (by decide) (by decide) (fun h0 => by
      have hx := (variance_zero_iff [[("amount", Value.num 1)], [("amount", Value.num 1)],
        [("amount", Value.num 2)]] (by simp)).mp h0
      revert hx
      decide)
  ⟨h, claim_C10_fresh_anomalies _ 2 _ h⟩

unseal Rat.add Rat.mul Rat.inv Rat.sub in
/-- C9 (counterexample): the round trip does not reproduce the
original key/value pairs for non-string values: `{"a": 1}` is read
back as the string `"1"`, not the number `1`. -/
theorem claim_C9_counterexample :
    export_to_csv [[("a", Value.num 1)]] = "a\r\n1\r\n" ∧
    parseRecords (export_to_csv [[("a", Value.num 1)]]) = [[("a", "1")]] ∧
    ∀ v : Value, ("a", v) ∈ ([("a", Value.num 1)] : Record) → Value.str "1" ≠ v := by
  refine ⟨by rfl, by rfl, ?_⟩
  intro v hv
  simp only [List.mem_singleton, Prod.mk.injEq, true_and] at hv
  subst hv
  decide

/-- C9 (amended): `to_csv([])` is the empty string; on non-empty
input the output is one header row (the sorted union of all keys)
followed by one row per record in input order, and parsing the CSV
back into records by header reproduces each record's keys mapped to
the **string rendering** of its values (numbers stringified, `None`
and absent keys read back as empty strings); records whose values are
strings round-trip exactly. -/
theorem claim_C9_csv_roundtrip (es : List Record) (hne : es ≠ []) :
    export_to_csv [] = "" ∧
    parseCSV (export_to_csv es)
      = fieldnamesOf es :: es.map (fun e => (fieldnamesOf es).map (cellOf e)) ∧
    parseRecords (export_to_csv es)
      = es.map (fun e => (fieldnamesOf es).map (fun k => (k, cellOf e k))) ∧
    (∀ e : Record, ∀ k : String, e.lookup k = none → cellOf e k = "") := by
  have hp := parseCSV_export es hne
  refine ⟨rfl, hp, ?_, fun e k h => by simp [cellOf, h]⟩
  unfold parseRecords
  rw [hp]
  simp only [List.map_map]
  exact map_zip_rows (fieldnamesOf es) es

/-- Witness for C9 (amended) on two records with a quoted value and
missing keys. -/
theorem claim_C9_csv_roundtrip_witness :
    (([[("a", Value.str "x,y"), ("b", Value.null)], [("c", Value.num 2)]] : List Record) ≠ []) ∧
    (export_to_csv [] = "" ∧
     parseCSV (export_to_csv [[("a", Value.str "x,y"), ("b", Value.null)], [("c", Value.num 2)]])
       = fieldnamesOf [[("a", Value.str "x,y"), ("b", Value.null)], [("c", Value.num 2)]] ::
         ([[("a", Value.str "x,y"), ("b", Value.null)], [("c", Value.num 2)]] : List Record).map
           (fun e => (fieldnamesOf [[("a", Value.str "x,y"), ("b", Value.null)],
             [("c", Value.num 2)]]).map (cellOf e)) ∧
     parseRecords (export_to_csv [[("a", Value.str "x,y"), ("b", Value.null)],
         [("c", Value.num 2)]])
       = ([[("a", Value.str "x,y"), ("b", Value.null)], [("c", Value.num 2)]] : List Record).map
           (fun e => (fieldnamesOf [[("a", Value.str "x,y"), ("b", Value.null)],
             [("c", Value.num 2)]]).map (fun k => (k, cellOf e k))) ∧
     (∀ e : Record, ∀ k : String, e.lookup k = none → cellOf e k = "")) :=
  ⟨by simp,
   claim_C9_csv_roundtrip [[("a", Value.str "x,y"), ("b", Value.null)], [("c", Value.num 2)]]
     (by simp)⟩

end ExpenseAssistant
